import Mathlib

/-!
Shallow embedding of the MTG Commander deck-analysis engine:
the card categorizer (`categorize_card`), the per-deck statistics
aggregator (`update_deck_stats`), the deck filter engine
(`matchingDeckIds`), top-card reporting (`getTopCards`), package
detection (`findPackages`) and bracket comparison (`compareBrackets`),
together with theorems settling the specification's claims about them.

Machine reals (SQLite REAL / Python float) are modelled as `Rat`;
Python `round` (banker's rounding) and `int` (truncation toward zero)
are modelled explicitly.  The regular-expression matcher used by the
categorizer is an external collaborator (`re.search`) and is passed in
as an abstract `String → String → Bool` parameter; every theorem about
the categorizer holds for an arbitrary matcher.
-/

/- `Rat` arithmetic is `@[irreducible]` in Batteries; reopen it so that
concrete witnesses evaluate by `decide`. -/
attribute [local semireducible] Rat.add Rat.mul Rat.inv Rat.sub

/-- Python `int()` applied to a rational: truncation toward zero. -/
def pyInt (x : Rat) : Int := if 0 ≤ x then ⌊x⌋ else -⌊-x⌋

/-- Python `round()` to an integer: round half to even. -/
def pyRoundInt (x : Rat) : Int :=
  if x - ⌊x⌋ < 1/2 then ⌊x⌋
  else if 1/2 < x - ⌊x⌋ then ⌊x⌋ + 1
  else if ⌊x⌋ % 2 = 0 then ⌊x⌋ else ⌊x⌋ + 1

/-- Python `round(x, d)` for `d` decimal digits. -/
def pyRoundTo (x : Rat) (d : Nat) : Rat :=
  (pyRoundInt (x * (10 : Rat) ^ d) : Rat) / (10 : Rat) ^ d

/-- Python `needle in hay` on strings: substring containment. -/
def strContainsSub (hay needle : String) : Bool :=
  (List.range (hay.toList.length + 1)).any
    (fun i => needle.toList.isPrefixOf (hay.toList.drop i))

/-- Lexicographic `≤` on character lists by code point (Python string order). -/
def lexLe : List Char → List Char → Bool
  | [], _ => true
  | _ :: _, [] => false
  | a :: as, b :: bs =>
    if a.val.toNat < b.val.toNat then true
    else if b.val.toNat < a.val.toNat then false
    else lexLe as bs

/-- Python `<=` on strings. -/
def strLe (a b : String) : Bool := lexLe a.toList b.toList

/-- Python `<` on strings. -/
def strLt (a b : String) : Bool := !(strLe b a)

/-- Insert into a sorted list, before the first element not `le`-below `a`
(the insertion step of a stable insertion sort). -/
def insertSorted (le : α → α → Bool) (a : α) : List α → List α
  | [] => [a]
  | b :: l => if le a b then a :: b :: l else b :: insertSorted le a l

/-- Stable sort by the boolean comparator `le` (structural insertion sort;
stable, hence extensionally Python's `sorted`/`list.sort` for a total
preorder comparator). -/
def pySort (le : α → α → Bool) : List α → List α
  | [] => []
  | a :: l => insertSorted le a (pySort le l)

/-- Python `sorted` on a list of strings. -/
def pySortedStr (l : List String) : List String := pySort strLe l

/-- Embeds `s.add(x)` on a Python set modelled as a duplicate-free list. -/
def listInsert (l : List String) (x : String) : List String :=
  if l.contains x then l else l ++ [x]

/-! ## Categorizer (`src/categorizer.py`) -/

/-- The card attributes consulted by `categorize_card`. -/
structure CardData where
  name : String
  type_line : String
  oracle_text : String
  is_land : Bool
deriving DecidableEq, Repr

/-- Embeds `CATEGORY_PATTERNS`: category → ordered list of (regex pattern, weight). -/
def CATEGORY_PATTERNS : List (String × List (String × Rat)) :=
  [ ("ramp",
      [ ("add\\b.\x7b0,30\x7d\\bmana\\b", 1),
        ("search your library for.\x7b0,30\x7d\\bland\\b.\x7b0,30\x7d\\bonto the battlefield\\b", 1),
        ("put.\x7b0,30\x7d\\bland.\x7b0,30\x7d\\bonto the battlefield\\b", 1),
        ("add \\\x7b[WUBRGC]\\\x7d", 9/10),
        ("add .\x7b0,15\x7done mana of any", 1),
        ("mana of any color", 7/10),
        ("Treasure token", 6/10) ]),
    ("draw",
      [ ("draw.\x7b0,15\x7d\\bcards?\\b", 1),
        ("\\bdraw a card\\b", 1),
        ("\\bscry \\d", 5/10),
        ("look at the top.\x7b0,20\x7dcards? of your library", 6/10),
        ("whenever.\x7b0,40\x7ddraw", 8/10),
        ("impulse draw", 8/10),
        ("exile the top.\x7b0,30\x7dyou may (play|cast)", 8/10) ]),
    ("removal",
      [ ("destroy target.\x7b0,30\x7d(creature|artifact|enchantment|planeswalker|permanent|nonland)", 1),
        ("exile target.\x7b0,30\x7d(creature|artifact|enchantment|planeswalker|permanent|nonland)", 1),
        ("target.\x7b0,20\x7dgets? -\\d+/-\\d+", 9/10),
        ("deals? \\d+ damage to (target|any target)", 7/10),
        ("return target.\x7b0,20\x7dto (its owner\x27s hand|the top)", 7/10),
        ("sacrifice.\x7b0,15\x7d(creature|permanent)", 6/10),
        ("fight", 5/10) ]),
    ("board_wipe",
      [ ("destroy all.\x7b0,20\x7d(creature|nonland|permanent|artifact|enchantment)", 1),
        ("exile all.\x7b0,20\x7d(creature|nonland|permanent|artifact|enchantment)", 1),
        ("all creatures get -\\d+/-\\d+", 1),
        ("each (creature|player).\x7b0,20\x7dsacrifice", 7/10),
        ("deals? \\d+ damage to each creature", 8/10) ]),
    ("counterspell",
      [ ("counter target spell", 1),
        ("counter target.\x7b0,30\x7d(instant|sorcery|creature|artifact|enchantment|activated)", 9/10),
        ("counter it\\b", 8/10) ]),
    ("tutor",
      [ ("search your library for.\x7b0,30\x7d(card|creature|instant|sorcery|artifact|enchantment)", 1),
        ("search your library.\x7b0,40\x7d(put it|reveal)", 1) ]),
    ("protection",
      [ ("\\b(hexproof|shroud|indestructible|ward)\\b", 8/10),
        ("(gain|have|gets?) protection from", 8/10),
        ("can\x27t be (countered|the target)", 7/10),
        ("phase out", 6/10) ]),
    ("recursion",
      [ ("return.\x7b0,30\x7dfrom.\x7b0,15\x7dgraveyard.\x7b0,20\x7d(to|onto)", 1),
        ("put.\x7b0,30\x7dfrom.\x7b0,15\x7dgraveyard.\x7b0,20\x7d(onto|into your hand)", 1),
        ("cast.\x7b0,20\x7dfrom.\x7b0,10\x7dgraveyard", 9/10),
        ("reanimate", 9/10),
        ("flashback", 7/10) ]) ]

/-- Embeds `KNOWN_STAPLES`: curated staples per category, overriding pattern matching. -/
def KNOWN_STAPLES : List (String × List String) :=
  [ ("ramp",
      [ "Sol Ring", "Arcane Signet", "Commander\x27s Sphere", "Mind Stone",
        "Fellwar Stone", "Thought Vessel", "Wayfarer\x27s Bauble",
        "Burnished Hart", "Solemn Simulacrum",
        "Azorius Signet", "Dimir Signet", "Rakdos Signet", "Gruul Signet",
        "Selesnya Signet", "Orzhov Signet", "Izzet Signet", "Golgari Signet",
        "Boros Signet", "Simic Signet",
        "Talisman of Progress", "Talisman of Dominance", "Talisman of Indulgence",
        "Talisman of Impulse", "Talisman of Unity", "Talisman of Hierarchy",
        "Talisman of Creativity", "Talisman of Resilience", "Talisman of Conviction",
        "Talisman of Curiosity",
        "Rampant Growth", "Cultivate", "Kodama\x27s Reach", "Farseek",
        "Nature\x27s Lore", "Three Visits", "Sakura-Tribe Elder",
        "Birds of Paradise", "Llanowar Elves", "Elvish Mystic" ]),
    ("draw",
      [ "Rhystic Study", "Mystic Remora", "Sylvan Library",
        "Brainstorm", "Ponder", "Preordain", "Phyrexian Arena",
        "Beast Whisperer", "Harmonize", "Night\x27s Whisper", "Sign in Blood",
        "Read the Bones", "Painful Truths" ]),
    ("removal",
      [ "Swords to Plowshares", "Path to Exile", "Generous Gift",
        "Beast Within", "Chaos Warp", "Reality Shift",
        "Abrupt Decay", "Assassin\x27s Trophy", "Anguished Unmaking",
        "Despark", "Vindicate", "Cyclonic Rift",
        "Feed the Swarm", "Ravenform" ]),
    ("board_wipe",
      [ "Wrath of God", "Damnation", "Supreme Verdict",
        "Blasphemous Act", "Vanquish the Horde", "Farewell",
        "Toxic Deluge", "Austere Command", "Merciless Eviction",
        "Cyclonic Rift" ]),
    ("counterspell",
      [ "Counterspell", "Swan Song", "Negate", "Arcane Denial",
        "Dovin\x27s Veto", "Fierce Guardianship", "Force of Will",
        "Force of Negation", "Mana Drain", "An Offer You Can\x27t Refuse" ]),
    ("tutor",
      [ "Demonic Tutor", "Vampiric Tutor", "Enlightened Tutor",
        "Mystical Tutor", "Worldly Tutor", "Gamble",
        "Diabolic Intent", "Imperial Seal" ]) ]

/-- The reverse lookup `_KNOWN_CARD_CATEGORIES`: categories a staple name belongs to
(in `KNOWN_STAPLES` iteration order, which is all that membership needs). -/
def knownCats (name : String) : List String :=
  (KNOWN_STAPLES.filter (fun p => p.2.contains name)).map (·.1)

/-- The category set of `categorize_card` after the staple seeding and the
land tag (the state of `categories` at the short-circuit test).  The mutable
Python set is modelled as a duplicate-free list in insertion order. -/
def categorizeSeeded (card : CardData) : List String :=
  let cats0 : List String := (knownCats card.name).foldl listInsert []
  if card.is_land then listInsert cats0 "land" else cats0

/-- The category set after pattern matching, the type-line heuristic and the
`"other"` fallback (the else-branch of the land short-circuit). -/
def categorizeFull (search : String → String → Bool) (card : CardData) : List String :=
  let cats2 := CATEGORY_PATTERNS.foldl
    (fun acc cp => if cp.2.any (fun pw => search pw.1 card.oracle_text) then listInsert acc cp.1 else acc)
    (categorizeSeeded card)
  let cats3 := if strContainsSub card.type_line "Land" ∧ ¬ cats2.contains "land" then listInsert cats2 "land" else cats2
  if cats3.isEmpty then ["other"] else cats3

/-- Embeds `categorize_card` from `src/categorizer.py`, parameterized by the regex
matcher `search pattern text` (Python `re.search(pattern, text, re.IGNORECASE)`,
an external collaborator).  The land short-circuit branch returns
`list(categories)` where the set is provably the singleton `{"land"}`, so
returning its sorted list is extensionally identical. -/
def categorize_card (search : String → String → Bool) (card : CardData) : List String :=
  if card.is_land ∧ ((categorizeSeeded card).filter (fun c => c ≠ "land")).isEmpty then
    pySortedStr (categorizeSeeded card)
  else
    pySortedStr (categorizeFull search card)

/-- The fixed category vocabulary: the eight pattern categories plus `"land"`
and `"other"` (the `valid_categories` list of `src/cli.py`). -/
def CATEGORY_VOCAB : List String :=
  ["ramp", "draw", "removal", "board_wipe", "counterspell",
   "tutor", "protection", "recursion", "land", "other"]

/-! ## Data model (`src/db.py` schema) -/

/-- A row of the `cards` table (columns consulted by the analytics code). -/
structure Card where
  name : String
  cmc : Rat
  type_line : String
  oracle_text : String
  is_land : Bool
  is_creature : Bool
  categories : List String
deriving DecidableEq, Repr

/-- A row of the `decks` table (input columns; computed stats live in `DeckStats`). -/
structure Deck where
  id : Nat
  commander_name : String
  partner_name : Option String
  color_identity_key : String
  bracket : Option Int
  commander_cmc : Rat
deriving DecidableEq, Repr

/-- A row of the `deck_cards` table (minus the deck id, carried alongside). -/
structure DeckCard where
  card_name : String
  quantity : Int
  board : String
deriving DecidableEq, Repr

/-- The database: `cards`, `decks` and `deck_cards` ((deck_id, row) pairs). -/
structure DB where
  cards : List Card
  decks : List Deck
  deck_cards : List (Nat × DeckCard)
deriving DecidableEq, Repr

/-- Embeds `SELECT * FROM cards WHERE name = ?` — `name` is declared UNIQUE. -/
def dbFindCard (db : DB) (name : String) : Option Card :=
  db.cards.find? (fun c => c.name = name)

/-! ## Filter engine (`_get_matching_deck_ids`, `src/analyzer.py`) -/

/-- The sort key of `_color_key`: `"WUBRG".index(c) if c in "WUBRG" else 99`. -/
def wubrgIdx (c : Char) : Nat :=
  if c = 'W' then 0 else if c = 'U' then 1 else if c = 'B' then 2
  else if c = 'R' then 3 else if c = 'G' then 4 else 99

/-- Embeds `_color_key`: color list sorted into canonical W,U,B,R,G order, joined. -/
def colorKey (colors : List Char) : String :=
  String.mk (pySort (fun a b => wubrgIdx a ≤ wubrgIdx b) colors)

/-- SQLite `column LIKE '%c%'` for a single character `c` (ASCII case-insensitive). -/
def sqliteLikeChar (s : String) (c : Char) : Bool :=
  s.toList.any (fun k => k.toLower = c.toLower)

/-- The WHERE clause assembled by `_get_matching_deck_ids`, evaluated on one
deck row; `none` predicates append no condition. -/
def deckMatches (colors : Option (List Char)) (bracket : Option Int)
    (commander_cmc : Option Rat) (commander_name : Option String)
    (color_mode : String) (d : Deck) : Bool :=
  (match colors with
   | none => true
   | some cs =>
     if color_mode = "exact" then d.color_identity_key = colorKey cs
     else if color_mode = "contains" then
       cs.all (fun c => sqliteLikeChar d.color_identity_key c)
     else if color_mode = "subset" then
       let allowed := (colorKey cs).toList
       ("WUBRG".toList.filter (fun c => !(allowed.contains c))).all
         (fun c => !(sqliteLikeChar d.color_identity_key c))
     else true)
  && (match bracket with | none => true | some b => d.bracket = some b)
  && (match commander_cmc with | none => true | some v => d.commander_cmc = v)
  && (match commander_name with
      | none => true
      | some n => d.commander_name = n || d.partner_name = some n)

/-- Embeds `_get_matching_deck_ids`: ids of decks satisfying all given predicates. -/
def matchingDeckIds (db : DB) (colors : Option (List Char)) (bracket : Option Int)
    (commander_cmc : Option Rat) (commander_name : Option String)
    (color_mode : String) : List Nat :=
  (db.decks.filter (deckMatches colors bracket commander_cmc commander_name color_mode)).map (·.id)

/-! ## Deck statistics aggregator (`update_deck_stats`, `src/db.py`) -/

/-- Embeds `m[k] = m.get(k, 0) + q` on a Python dict modelled as an association list
(insertion order preserved, a new key appended at the end; a dict holds at
most one entry per key, so updating the first match is exact). -/
def bumpAssoc {κ : Type} [DecidableEq κ] : List (κ × Int) → κ → Int → List (κ × Int)
  | [], k, q => [(k, q)]
  | p :: t, k, q => if p.1 = k then (p.1, p.2 + q) :: t else p :: bumpAssoc t k q

/-- Embeds `row["is_land"] if row["is_land"] is not None else 0`. -/
def rowIsLand (r : DeckCard × Option Card) : Bool :=
  match r.2 with | some c => c.is_land | none => false

/-- Embeds `row["is_creature"] if row["is_creature"] is not None else 0`. -/
def rowIsCreature (r : DeckCard × Option Card) : Bool :=
  match r.2 with | some c => c.is_creature | none => false

/-- Embeds `row["type_line"] or ""`. -/
def rowTypeLine (r : DeckCard × Option Card) : String :=
  match r.2 with | some c => c.type_line | none => ""

/-- Embeds `row["cmc"] or 0`. -/
def rowCmc (r : DeckCard × Option Card) : Rat :=
  match r.2 with | some c => c.cmc | none => 0

/-- Embeds `json.loads(row["categories"]) if row["categories"] else []`. -/
def rowCats (r : DeckCard × Option Card) : List String :=
  match r.2 with | some c => c.categories | none => []

/-- The accumulator variables of the row loop in `update_deck_stats`. -/
structure StatsState where
  total : Int
  cmc_sum : Rat
  nonland_count : Int
  land_count : Int
  creature_count : Int
  instant_sorcery : Int
  curve : List (Int × Int)
  category_counts : List (String × Int)
deriving DecidableEq, Repr

/-- Initial accumulator: `curve = {i: 0 for i in range(7)}`, the rest zero/empty. -/
def initStats : StatsState :=
  { total := 0, cmc_sum := 0, nonland_count := 0, land_count := 0,
    creature_count := 0, instant_sorcery := 0,
    curve := [(0, 0), (1, 0), (2, 0), (3, 0), (4, 0), (5, 0), (6, 0)],
    category_counts := [] }

/-- One iteration of the row loop of `update_deck_stats`.  `row.2 = none`
models a deck card with no matching row in `cards` (all joined columns NULL):
`is_land`/`is_creature` default to 0, `type_line` to `""`, `cmc` to 0 and
`categories` to the empty list, exactly as the `or`/`is not None` guards do. -/
def statsStep (st : StatsState) (row : DeckCard × Option Card) : StatsState :=
  if row.1.board = "commander" then st
  else
    let qty := row.1.quantity
    let st1 := { st with total := st.total + qty }
    let st2 :=
      if rowIsLand row then { st1 with land_count := st1.land_count + qty }
      else
        { st1 with nonland_count := st1.nonland_count + qty,
                   cmc_sum := st1.cmc_sum + rowCmc row * (qty : Rat),
                   curve := bumpAssoc st1.curve (min (pyInt (rowCmc row)) 6) qty }
    let st3 := if rowIsCreature row then { st2 with creature_count := st2.creature_count + qty } else st2
    let st4 := if strContainsSub (rowTypeLine row) "Instant" || strContainsSub (rowTypeLine row) "Sorcery"
               then { st3 with instant_sorcery := st3.instant_sorcery + qty } else st3
    { st4 with category_counts := (rowCats row).foldl (fun m cat => bumpAssoc m cat qty) st4.category_counts }

/-- Embeds `sum(qty for non-commander rows)`: what `total` accumulates. -/
def rowsTotal (rows : List (DeckCard × Option Card)) : Int :=
  (rows.map (fun r => if r.1.board = "commander" then 0 else r.1.quantity)).sum

/-- The land part of `rowsTotal`. -/
def rowsLand (rows : List (DeckCard × Option Card)) : Int :=
  (rows.map (fun r => if r.1.board = "commander" then 0
    else if rowIsLand r then r.1.quantity else 0)).sum

/-- The non-land part of `rowsTotal`. -/
def rowsNonland (rows : List (DeckCard × Option Card)) : Int :=
  (rows.map (fun r => if r.1.board = "commander" then 0
    else if rowIsLand r then 0 else r.1.quantity)).sum

/-- Quantity-weighted label count over the non-commander rows: each row
contributes `quantity * (number of stored category labels)`. -/
def rowsCatWeight (rows : List (DeckCard × Option Card)) : Int :=
  (rows.map (fun r => if r.1.board = "commander" then 0
    else r.1.quantity * ((rowCats r).length : Int))).sum

/-- The joined rows `SELECT dc.*, c.* FROM deck_cards dc LEFT JOIN cards c ON
dc.card_name = c.name WHERE dc.deck_id = ?`. -/
def statsRows (db : DB) (deck_id : Nat) : List (DeckCard × Option Card) :=
  (db.deck_cards.filter (fun r => r.1 = deck_id)).map
    (fun r => (r.2, dbFindCard db r.2.card_name))

/-- The row loop of `update_deck_stats`. -/
def statsFold (rows : List (DeckCard × Option Card)) : StatsState :=
  rows.foldl statsStep initStats

/-- The statistics written back to the `decks` row. -/
structure DeckStats where
  total_cards : Int
  avg_cmc : Rat
  land_count : Int
  creature_count : Int
  instant_sorcery_count : Int
  curve : List (Int × Int)
  category_counts : List (String × Int)
deriving DecidableEq, Repr

/-- The statistics computed from a list of joined rows (the whole body of
`update_deck_stats` after its SELECT). -/
def deckStatsOfRows (rows : List (DeckCard × Option Card)) : DeckStats :=
  let st := statsFold rows
  { total_cards := st.total,
    avg_cmc := pyRoundTo (if 0 < st.nonland_count then st.cmc_sum / (st.nonland_count : Rat) else 0) 2,
    land_count := st.land_count,
    creature_count := st.creature_count,
    instant_sorcery_count := st.instant_sorcery,
    curve := st.curve,
    category_counts := st.category_counts }

/-- Embeds `update_deck_stats` (`src/db.py`): recompute the stats of one deck. -/
def update_deck_stats (db : DB) (deck_id : Nat) : DeckStats :=
  deckStatsOfRows (statsRows db deck_id)

/-! ## Shared analytics plumbing (`src/analyzer.py`) -/

/-- Embeds `SELECT ... FROM deck_cards WHERE deck_id IN (...) AND board = "mainboard" (SQLite quoting elided)`. -/
def mainboardRows (db : DB) (deckIds : List Nat) : List (Nat × DeckCard) :=
  db.deck_cards.filter (fun r => deckIds.contains r.1 && r.2.board = "mainboard")

/-- Embeds `COUNT(DISTINCT dc.deck_id)` for one card name among the given rows. -/
def distinctDeckCount (rows : List (Nat × DeckCard)) (name : String) : Nat :=
  (((rows.filter (fun r => r.2.card_name = name)).map (·.1)).toFinset).card

/-- The filtered deck ids used by `get_top_cards` and `find_packages`
(color + bracket predicates only). -/
def fpDeckIds (db : DB) (colors : Option (List Char)) (bracket : Option Int)
    (color_mode : String) : List Nat :=
  matchingDeckIds db colors bracket none none color_mode

/-- The mainboard rows of the filtered decks. -/
def fpRows (db : DB) (colors : Option (List Char)) (bracket : Option Int)
    (color_mode : String) : List (Nat × DeckCard) :=
  mainboardRows db (fpDeckIds db colors bracket color_mode)

/-! ## Top cards (`get_top_cards`, `src/analyzer.py`) -/

/-- One display entry of `get_top_cards`. -/
structure TopEntry where
  name : String
  appearances : Nat
  percentage : Rat
  cmc : Option Rat
  type_line : String
deriving DecidableEq, Repr

/-- Success payload of `get_top_cards`: `entries` pairs each grouped row's
primary display category with its entry, in row order; `cards_by_category`
is recovered by `topCardsBucket`. -/
structure TopPayload where
  deck_count : Nat
  entries : List (String × TopEntry)
deriving DecidableEq, Repr

/-- Embeds `get_top_cards` returns either an error dict or a success dict. -/
inductive TopResult where
  | error (reason : String) (deck_count : Nat)
  | ok (payload : TopPayload)
deriving DecidableEq, Repr

/-- The grouped query of `get_top_cards`: distinct mainboard card names with
their distinct-deck counts, `HAVING deck_count >= min_appearances`,
`ORDER BY deck_count DESC` (SQLite leaves the order of tied counts
unspecified; the embedding keeps list order on ties, which no claim uses). -/
def topGroupedRows (rows : List (Nat × DeckCard)) (minApp : Nat) : List (String × Nat) :=
  pySort (fun x y => y.2 ≤ x.2)
    (((rows.map (fun r => r.2.card_name)).dedup.map
        (fun n => (n, distinctDeckCount rows n))).filter (fun p => minApp ≤ p.2))

/-- Build one row's display entry and its primary category:
`cats = json.loads(categories) if categories else ["other"]`,
`primary = cats[0] if cats else "other"`. -/
def topPrimaryAndEntry (db : DB) (total : Nat) (p : String × Nat) : String × TopEntry :=
  let c := dbFindCard db p.1
  let cats := match c with | some card => card.categories | none => ["other"]
  (cats.headD "other",
   { name := p.1, appearances := p.2,
     percentage := pyRoundTo ((p.2 : Rat) / (total : Rat) * 100) 1,
     cmc := c.map Card.cmc,
     type_line := match c with | some card => card.type_line | none => "" })

/-- Embeds `get_top_cards` (the unused `limit` parameter of the source is dropped;
the source accepts it but never applies it). -/
def getTopCards (db : DB) (colors : Option (List Char)) (bracket : Option Int)
    (minApp : Nat) (color_mode : String) : TopResult :=
  let deckIds := fpDeckIds db colors bracket color_mode
  if deckIds.length = 0 then .error "No matching decks found" 0
  else
    .ok { deck_count := deckIds.length,
          entries := (topGroupedRows (fpRows db colors bracket color_mode) minApp).map
            (topPrimaryAndEntry db deckIds.length) }

/-- Embeds `cards_by_category[cat]`: the entries filed under primary category `cat`,
sorted by appearances descending (`by_category[cat].sort(key=...)`). -/
def topCardsBucket (p : TopPayload) (cat : String) : List TopEntry :=
  pySort (fun x y => y.appearances ≤ x.appearances)
    ((p.entries.filter (fun e => e.1 = cat)).map (·.2))

/-! ## Package detector (`find_packages`, `src/analyzer.py`) -/

/-- A detected card package. -/
structure Package where
  cards : List String
  frequency : Rat
  deck_count : Nat
deriving DecidableEq, Repr

/-- Success payload of `find_packages`. -/
structure FPPayload where
  deck_count : Nat
  packages : List Package
deriving DecidableEq, Repr

/-- Embeds `find_packages` returns either an error dict (reason + deck count) or a
success dict. -/
inductive FPResult where
  | error (reason : String) (deck_count : Nat)
  | ok (payload : FPPayload)
deriving DecidableEq, Repr

/-- Embeds `card_decks[name]`: the set of filtered deck ids whose mainboard contains
the card. -/
def cardDeckSet (rows : List (Nat × DeckCard)) (name : String) : Finset Nat :=
  ((rows.filter (fun r => r.2.card_name = name)).map (·.1)).toFinset

/-- Jaccard similarity of two cards' deck-id sets (0 when both sets are empty,
a case the source never reaches because it guards `union > 0`). -/
def jaccard (rows : List (Nat × DeckCard)) (a b : String) : Rat :=
  ((cardDeckSet rows a ∩ cardDeckSet rows b).card : Rat) /
    ((cardDeckSet rows a ∪ cardDeckSet rows b).card : Rat)

/-- Embeds `card_names = sorted(common_cards.keys())`: cards present in at least 30%
of the filtered decks, minus the auto-include denylist, sorted. -/
def fpCommonNames (rows : List (Nat × DeckCard)) (total : Nat) : List String :=
  pySortedStr ((rows.map (fun r => r.2.card_name)).dedup.filter
    (fun n => decide ((3 : Rat)/10 ≤ ((cardDeckSet rows n).card : Rat) / (total : Rat))
      && !(["Sol Ring", "Command Tower", "Arcane Signet"].contains n)))

/-- All ordered pairs `(l[i], l[j])` with `i < j` (the source's nested
`enumerate` loop). -/
def sortedPairs : List α → List (α × α)
  | [] => []
  | a :: tl => (tl.map (fun b => (a, b))) ++ sortedPairs tl

/-- The `co_occurrence` dict: pairs of common cards with `union > 0` whose
Jaccard similarity reaches the threshold, with their similarity. -/
def fpCoList (rows : List (Nat × DeckCard)) (t : Rat) (names : List String) :
    List ((String × String) × Rat) :=
  (sortedPairs names).filterMap (fun p =>
    let shared := (cardDeckSet rows p.1 ∩ cardDeckSet rows p.2).card
    let un := (cardDeckSet rows p.1 ∪ cardDeckSet rows p.2).card
    if 0 < un then
      if t ≤ (shared : Rat) / (un : Rat) then some (p, (shared : Rat) / (un : Rat)) else none
    else none)

/-- Embeds `tuple(sorted([c, member]))`. -/
def pairKey (a b : String) : String × String := if strLt b a then (b, a) else (a, b)

/-- Embeds `co_occurrence.get(pair, 0)`. -/
def coLookup (co : List ((String × String) × Rat)) (k : String × String) : Rat :=
  match co.find? (fun e => e.1 = k) with
  | some e => e.2
  | none => 0

/-- Grow a seeded cluster: absorb every unconsumed card whose similarity to
every current member reaches the threshold. -/
def growCluster (co : List ((String × String) × Rat)) (t : Rat) (names : List String)
    (used : List String) (cluster : List String) : List String :=
  names.foldl (fun cl c =>
    if cl.contains c || used.contains c then cl
    else if cl.all (fun m => decide (t ≤ coLookup co (pairKey c m))) then cl ++ [c]
    else cl) cluster

/-- Embeds `set.intersection(*sets)` for a nonempty list of sets. -/
def interAll : List (Finset Nat) → Finset Nat
  | [] => ∅
  | [s] => s
  | s :: tl => s ∩ interAll tl

/-- Emit one package from a cluster: sorted members, frequency as the rounded
percentage of filtered decks containing every member. -/
def mkPackage (rows : List (Nat × DeckCard)) (total : Nat) (cluster : List String) : Package :=
  let dwa := interAll (cluster.map (cardDeckSet rows))
  { cards := pySortedStr cluster,
    frequency := pyRoundTo ((dwa.card : Rat) / (total : Rat) * 100) 1,
    deck_count := dwa.card }

/-- Every pair of distinct members meets the similarity threshold. -/
def pairwiseJ (rows : List (Nat × DeckCard)) (t : Rat) (cl : List String) : Prop :=
  ∀ a ∈ cl, ∀ b ∈ cl, a ≠ b → t ≤ jaccard rows a b

/-- A package produced from some well-formed cluster. -/
def goodPackage (rows : List (Nat × DeckCard)) (total : Nat) (minCards : Nat) (t : Rat)
    (p : Package) : Prop :=
  ∃ cl : List String, cl ≠ [] ∧ cl.Nodup ∧ pairwiseJ rows t cl
    ∧ minCards ≤ cl.length ∧ p = mkPackage rows total cl

/-- The greedy clustering loop over the retained pairs in descending
similarity order. -/
def greedyClusters (co : List ((String × String) × Rat)) (t : Rat) (names : List String)
    (rows : List (Nat × DeckCard)) (total : Nat) (minCards : Nat) :
    List ((String × String) × Rat) → List String → List Package → List Package
  | [], _, acc => acc
  | e :: rest, used, acc =>
    if used.contains e.1.1 && used.contains e.1.2 then
      greedyClusters co t names rows total minCards rest used acc
    else
      let cluster := growCluster co t names used [e.1.1, e.1.2]
      if minCards ≤ cluster.length then
        greedyClusters co t names rows total minCards rest
          (cluster.foldl listInsert used) (acc ++ [mkPackage rows total cluster])
      else
        greedyClusters co t names rows total minCards rest used acc

/-- Embeds `find_packages` (`src/analyzer.py`). -/
def findPackages (db : DB) (colors : Option (List Char)) (bracket : Option Int)
    (min_co_occurrence : Rat) (min_cards : Nat) (color_mode : String) : FPResult :=
  let deckIds := fpDeckIds db colors bracket color_mode
  if deckIds.length < 3 then
    .error "Need at least 3 matching decks for package detection" deckIds.length
  else
    let rows := fpRows db colors bracket color_mode
    let total := deckIds.length
    let names := fpCommonNames rows total
    let co := fpCoList rows min_co_occurrence names
    let pkgs := greedyClusters co min_co_occurrence names rows total min_cards
      (pySort (fun x y => y.2 ≤ x.2) co) [] []
    .ok { deck_count := total,
          packages := pySort (fun p q => q.frequency ≤ p.frequency) pkgs }

/-! ## Bracket comparison (`compare_brackets`, `src/analyzer.py`) -/

/-- One entry of a comparison side: `bracket_a_pct`, `bracket_b_pct` and the
signed `diff` (all rounded to one decimal, diff positive when the card is
more common in bracket b). -/
structure CBEntry where
  name : String
  pct_a : Rat
  pct_b : Rat
  diff : Rat
deriving DecidableEq, Repr

/-- Success payload of `compare_brackets`. -/
structure CBPayload where
  decks_a : Nat
  decks_b : Nat
  more_in_bracket_b : List CBEntry
  more_in_bracket_a : List CBEntry
deriving DecidableEq, Repr

/-- Embeds `compare_brackets` returns either an error dict (carrying both deck
counts, which the source interpolates into its message) or a success dict. -/
inductive CBResult where
  | error (decks_a decks_b : Nat)
  | ok (payload : CBPayload)
deriving DecidableEq, Repr

/-- Embeds `get_card_frequencies(deck_ids)[card]` with the `.get(card, 0)` default:
fraction of the given decks whose mainboard contains the card. -/
def cardFreq (db : DB) (deckIds : List Nat) (name : String) : Rat :=
  (distinctDeckCount (mainboardRows db deckIds) name : Rat) / (deckIds.length : Rat)

/-- Embeds `all_cards = set(freq_a) | set(freq_b)` (Python set iteration order is
incidental; the embedding uses first-appearance order, which only tie
ordering of the later stable sort can observe). -/
def cbAllCards (db : DB) (idsA idsB : List Nat) : List String :=
  ((mainboardRows db idsA).map (fun r => r.2.card_name) ++
    (mainboardRows db idsB).map (fun r => r.2.card_name)).dedup

/-- The `diffs` list: entries for every card whose play-rate difference
exceeds 0.2 in absolute value. -/
def cbDiffs (db : DB) (idsA idsB : List Nat) : List CBEntry :=
  (cbAllCards db idsA idsB).filterMap (fun card =>
    let fa := cardFreq db idsA card
    let fb := cardFreq db idsB card
    if (1 : Rat)/5 < |fb - fa| then
      some { name := card, pct_a := pyRoundTo (fa * 100) 1, pct_b := pyRoundTo (fb * 100) 1,
             diff := pyRoundTo ((fb - fa) * 100) 1 }
    else none)

/-- Embeds `compare_brackets` (`src/analyzer.py`). -/
def compareBrackets (db : DB) (colors : List Char) (bracket_a bracket_b : Int)
    (color_mode : String) : CBResult :=
  let idsA := matchingDeckIds db (some colors) (some bracket_a) none none color_mode
  let idsB := matchingDeckIds db (some colors) (some bracket_b) none none color_mode
  if idsA.length = 0 || idsB.length = 0 then .error idsA.length idsB.length
  else
    let diffs := pySort (fun x y => |y.diff| ≤ |x.diff|) (cbDiffs db idsA idsB)
    .ok { decks_a := idsA.length, decks_b := idsB.length,
          more_in_bracket_b := (diffs.filter (fun d => decide (0 < d.diff))).take 20,
          more_in_bracket_a := (diffs.filter (fun d => decide (d.diff < 0))).take 20 }

/-! ## Concrete instances used by witnesses and counterexamples -/

/-- Three decks sharing the same three mainboard cards: `find_packages`
detects a single full-frequency package. -/
def fpDB : DB :=
  { cards := [],
    decks := [ ⟨1, "CA", none, "G", some 2, 3⟩, ⟨2, "CB", none, "G", some 2, 3⟩,
               ⟨3, "CC", none, "G", some 2, 3⟩ ],
    deck_cards :=
      [ (1, ⟨"Aa", 1, "mainboard"⟩), (1, ⟨"Bb", 1, "mainboard"⟩), (1, ⟨"Cc", 1, "mainboard"⟩),
        (2, ⟨"Aa", 1, "mainboard"⟩), (2, ⟨"Bb", 1, "mainboard"⟩), (2, ⟨"Cc", 1, "mainboard"⟩),
        (3, ⟨"Aa", 1, "mainboard"⟩), (3, ⟨"Bb", 1, "mainboard"⟩), (3, ⟨"Cc", 1, "mainboard"⟩) ] }

/-- A database with a single deck (fewer than the 3 decks package detection
needs). -/
def oneDeckDB : DB :=
  { cards := [], decks := [⟨1, "CA", none, "G", some 2, 3⟩],
    deck_cards := [(1, ⟨"Aa", 1, "mainboard"⟩)] }

/-- The bracket-comparison scenario: 10 bracket-2 decks of which 9 run `"X"`,
10 bracket-3 decks of which 1 runs `"X"` (90% vs 10% play rate). -/
def cbDB : DB :=
  { cards := [],
    decks := (List.range 10).map (fun i => ⟨i+1, "C", none, "G", some 2, 0⟩) ++
             (List.range 10).map (fun i => ⟨i+11, "C", none, "G", some 3, 0⟩),
    deck_cards := ((List.range 9).map (fun i => (i+1, ⟨"X", 1, "mainboard"⟩))) ++
                  [(11, ⟨"X", 1, "mainboard"⟩)] }

/-- Two decks both running `"Foo"`, whose stored categories are exactly what
`categorize_card` produces for it. -/
def topDB : DB :=
  { cards := [ ⟨"Foo", 2, "Creature", "", false, true, ["other"]⟩ ],
    decks := [ ⟨1, "A", none, "G", none, 0⟩, ⟨2, "B", none, "G", none, 0⟩ ],
    deck_cards := [ (1, ⟨"Foo", 1, "mainboard"⟩), (2, ⟨"Foo", 1, "mainboard"⟩) ] }

/-- One deck with a single mainboard card carrying two category labels. -/
def multiCatDB : DB :=
  { cards := [ ⟨"Multi", 2, "Sorcery", "", false, false, ["draw", "ramp"]⟩ ],
    decks := [⟨1, "A", none, "G", none, 0⟩],
    deck_cards := [(1, ⟨"Multi", 1, "mainboard"⟩)] }

/-- One deck whose only deck-card row sits on the sideboard. -/
def sideboardDB : DB :=
  { cards := [], decks := [⟨1, "A", none, "G", none, 0⟩],
    deck_cards := [(1, ⟨"Side", 1, "sideboard"⟩)] }

/-- The same deck with the sideboard row removed. -/
def sideboardFreeDB : DB :=
  { cards := [], decks := [⟨1, "A", none, "G", none, 0⟩], deck_cards := [] }

/-- A deck whose canonical color key is `"UG"` (Simic, in W,U,B,R,G order). -/
def simicDB : DB :=
  { cards := [], decks := [⟨1, "A", none, "UG", some 2, 0⟩], deck_cards := [] }

/-! ## Helper lemmas: insertion sort, list sets, rounding -/

theorem insertSorted_perm (le : α → α → Bool) (a : α) :
    ∀ l : List α, List.Perm (insertSorted le a l) (a :: l) := by
  intro l
  induction l with
  | nil => simp [insertSorted]
  | cons b t ih =>
    simp only [insertSorted]
    by_cases h : le a b = true
    · simp [h]
    · simp only [h, if_false]
      exact ((ih.cons b).trans (List.Perm.swap a b t))

theorem pySort_perm (le : α → α → Bool) : ∀ l : List α, List.Perm (pySort le l) l := by
  intro l
  induction l with
  | nil => simp [pySort]
  | cons a t ih =>
    simpa [pySort] using (insertSorted_perm le a (pySort le t)).trans (ih.cons a)

theorem mem_pySort {le : α → α → Bool} {l : List α} {x : α} :
    x ∈ pySort le l ↔ x ∈ l :=
  (pySort_perm le l).mem_iff

theorem pySort_length (le : α → α → Bool) (l : List α) :
    (pySort le l).length = l.length :=
  (pySort_perm le l).length_eq

theorem pySort_nodup {le : α → α → Bool} {l : List α} (h : l.Nodup) :
    (pySort le l).Nodup :=
  ((pySort_perm le l).nodup_iff).mpr h

theorem insertSorted_sorted {le : α → α → Bool}
    (htot : ∀ a b, le a b = true ∨ le b a = true)
    (htrans : ∀ a b c, le a b = true → le b c = true → le a c = true) (a : α) :
    ∀ {l : List α}, l.Pairwise (fun x y => le x y = true) →
      (insertSorted le a l).Pairwise (fun x y => le x y = true) := by
  intro l
  induction l with
  | nil => simp [insertSorted]
  | cons b t ih =>
    intro h
    obtain ⟨hb, ht⟩ := List.pairwise_cons.mp h
    simp only [insertSorted]
    by_cases hab : le a b = true
    · rw [if_pos hab]
      refine List.pairwise_cons.mpr ⟨?_, h⟩
      intro x hx
      rcases List.mem_cons.mp hx with rfl | hx
      · exact hab
      · exact htrans a b x hab (hb x hx)
    · rw [if_neg hab]
      refine List.pairwise_cons.mpr ⟨?_, ih ht⟩
      intro x hx
      have hx2 := ((insertSorted_perm le a t).mem_iff).mp hx
      rcases List.mem_cons.mp hx2 with rfl | hx3
      · exact (htot x b).resolve_left hab
      · exact hb x hx3

theorem pySort_sorted {le : α → α → Bool}
    (htot : ∀ a b, le a b = true ∨ le b a = true)
    (htrans : ∀ a b c, le a b = true → le b c = true → le a c = true) :
    ∀ l : List α, (pySort le l).Pairwise (fun x y => le x y = true) := by
  intro l
  induction l with
  | nil => simp [pySort]
  | cons a t ih => exact insertSorted_sorted htot htrans a ih

theorem pySort_of_sorted {le : α → α → Bool} :
    ∀ {l : List α}, l.Pairwise (fun x y => le x y = true) → pySort le l = l := by
  intro l
  induction l with
  | nil => simp [pySort]
  | cons a t ih =>
    intro h
    obtain ⟨ha, ht⟩ := List.pairwise_cons.mp h
    simp only [pySort, ih ht]
    cases t with
    | nil => simp [insertSorted]
    | cons b t2 => simp [insertSorted, ha b (List.mem_cons_self b t2)]

theorem lexLe_total : ∀ a b : List Char, lexLe a b = true ∨ lexLe b a = true := by
  intro a
  induction a with
  | nil => intro b; left; simp [lexLe]
  | cons x xs ih =>
    intro b
    cases b with
    | nil => right; simp [lexLe]
    | cons y ys =>
      simp only [lexLe]
      rcases Nat.lt_trichotomy x.val.toNat y.val.toNat with h | h | h
      · left; simp [h]
      · rw [h]
        simp only [Nat.lt_irrefl, if_false]
        exact ih ys
      · right; simp [h]

theorem lexLe_trans : ∀ a b c : List Char,
    lexLe a b = true → lexLe b c = true → lexLe a c = true := by
  intro a
  induction a with
  | nil => intro b c _ _; simp [lexLe]
  | cons x xs ih =>
    intro b c hab hbc
    cases b with
    | nil => simp [lexLe] at hab
    | cons y ys =>
      cases c with
      | nil => simp [lexLe] at hbc
      | cons z zs =>
        simp only [lexLe] at hab hbc ⊢
        rcases Nat.lt_trichotomy x.val.toNat y.val.toNat with h1 | h1 | h1
        · rcases Nat.lt_trichotomy y.val.toNat z.val.toNat with h2 | h2 | h2
          · have : x.val.toNat < z.val.toNat := Nat.lt_trans h1 h2
            simp [this]
          · have : x.val.toNat < z.val.toNat := h2 ▸ h1
            simp [this]
          · rw [if_neg (Nat.lt_asymm h2), if_pos h2] at hbc
            exact absurd hbc (by simp)
        · rw [h1] at hab ⊢
          simp only [lt_self_iff_false, if_false] at hab
          rcases Nat.lt_trichotomy y.val.toNat z.val.toNat with h2 | h2 | h2
          · simp [h2]
          · rw [h2] at hbc ⊢
            simp only [lt_self_iff_false, if_false] at hbc ⊢
            exact ih ys zs hab hbc
          · rw [if_neg (Nat.lt_asymm h2), if_pos h2] at hbc
            exact absurd hbc (by simp)
        · rw [if_neg (Nat.lt_asymm h1), if_pos h1] at hab
          exact absurd hab (by simp)

theorem strLe_total : ∀ a b : String, strLe a b = true ∨ strLe b a = true := by
  intro a b; exact lexLe_total a.toList b.toList

theorem strLe_trans : ∀ a b c : String,
    strLe a b = true → strLe b c = true → strLe a c = true := by
  intro a b c; exact lexLe_trans a.toList b.toList c.toList

theorem contains_iff_mem {α : Type} [BEq α] [LawfulBEq α] {l : List α} {x : α} :
    l.contains x = true ↔ x ∈ l := List.elem_iff

theorem mem_listInsert {l : List String} {x y : String} :
    y ∈ listInsert l x ↔ y ∈ l ∨ y = x := by
  unfold listInsert
  by_cases h : l.contains x
  · rw [if_pos h]
    constructor
    · exact fun hy => Or.inl hy
    · rintro (hy | rfl)
      · exact hy
      · exact contains_iff_mem.mp h
  · rw [if_neg h]
    simp

theorem listInsert_nodup {l : List String} {x : String} (h : l.Nodup) :
    (listInsert l x).Nodup := by
  unfold listInsert
  by_cases hc : l.contains x
  · rwa [if_pos hc]
  · rw [if_neg hc]
    refine List.Nodup.append h (List.nodup_singleton x) ?_
    intro a ha hx
    rcases List.mem_singleton.mp hx with rfl
    exact hc (contains_iff_mem.mpr ha)

theorem mem_foldl_listInsert {src : List String} :
    ∀ {init : List String} {x : String},
      (x ∈ src.foldl listInsert init ↔ x ∈ init ∨ x ∈ src) := by
  induction src with
  | nil => simp
  | cons a t ih =>
    intro init x
    simp only [List.foldl_cons]
    rw [ih, mem_listInsert]
    constructor
    · rintro ((hx | rfl) | hx)
      · exact Or.inl hx
      · exact Or.inr (List.mem_cons_self _ _)
      · exact Or.inr (List.mem_cons_of_mem _ hx)
    · rintro (hx | hx)
      · exact Or.inl (Or.inl hx)
      · rcases List.mem_cons.mp hx with rfl | hx
        · exact Or.inl (Or.inr rfl)
        · exact Or.inr hx

theorem foldl_listInsert_nodup {src : List String} :
    ∀ {init : List String}, init.Nodup → (src.foldl listInsert init).Nodup := by
  induction src with
  | nil => intro init h; simpa using h
  | cons a t ih =>
    intro init h
    simp only [List.foldl_cons]
    exact ih (listInsert_nodup h)

theorem pyRoundInt_mem (x : Rat) : pyRoundInt x = ⌊x⌋ ∨ pyRoundInt x = ⌊x⌋ + 1 := by
  unfold pyRoundInt
  by_cases h1 : x - (⌊x⌋ : Rat) < 1/2
  · rw [if_pos h1]; exact Or.inl rfl
  · rw [if_neg h1]
    by_cases h2 : (1:Rat)/2 < x - (⌊x⌋ : Rat)
    · rw [if_pos h2]; exact Or.inr rfl
    · rw [if_neg h2]
      by_cases h3 : ⌊x⌋ % 2 = 0
      · rw [if_pos h3]; exact Or.inl rfl
      · rw [if_neg h3]; exact Or.inr rfl

theorem pyRoundInt_le_int {x : Rat} {n : Int} (h : x ≤ (n : Rat)) : pyRoundInt x ≤ n := by
  have hfl : ⌊x⌋ ≤ n := by
    have := Int.floor_le_floor h
    rwa [Int.floor_intCast] at this
  unfold pyRoundInt
  by_cases h1 : x - (⌊x⌋ : Rat) < 1/2
  · rw [if_pos h1]; exact hfl
  · rw [if_neg h1]
    have hr : (1:Rat)/2 ≤ x - (⌊x⌋ : Rat) := not_lt.mp h1
    have hpos : (⌊x⌋ : Rat) < x := by linarith
    have hlt : ⌊x⌋ < n := by
      have : (⌊x⌋ : Rat) < (n : Rat) := lt_of_lt_of_le hpos h
      exact_mod_cast this
    by_cases h2 : (1:Rat)/2 < x - (⌊x⌋ : Rat)
    · rw [if_pos h2]; omega
    · rw [if_neg h2]
      by_cases h3 : ⌊x⌋ % 2 = 0
      · rw [if_pos h3]; omega
      · rw [if_neg h3]; omega

theorem pyRoundTo_le_hundred {x : Rat} (h : x ≤ 100) : pyRoundTo x 1 ≤ 100 := by
  unfold pyRoundTo
  have h10 : x * (10:Rat)^(1:Nat) ≤ ((1000 : Int) : Rat) := by
    push_cast
    nlinarith
  have hle := pyRoundInt_le_int h10
  have hc : ((pyRoundInt (x * (10:Rat)^(1:Nat)) : Int) : Rat) ≤ ((1000 : Int) : Rat) := by
    exact_mod_cast hle
  rw [div_le_iff₀ (by norm_num : (0:Rat) < (10:Rat)^(1:Nat))]
  calc ((pyRoundInt (x * (10:Rat)^(1:Nat)) : Int) : Rat) ≤ 1000 := by exact_mod_cast hc
    _ = 100 * (10:Rat)^(1:Nat) := by norm_num

/-! ## Categorizer lemmas -/

theorem mem_pySortedStr {l : List String} {x : String} : x ∈ pySortedStr l ↔ x ∈ l :=
  mem_pySort

theorem pySortedStr_ne_nil {l : List String} (h : l ≠ []) : pySortedStr l ≠ [] := by
  intro h2
  apply h
  have hlen := pySort_length strLe l
  rw [show pySort strLe l = pySortedStr l from rfl, h2] at hlen
  exact List.length_eq_zero.mp hlen.symm

theorem mem_patterns_foldl (g : String × List (String × Rat) → Bool) :
    ∀ (ps : List (String × List (String × Rat))) (acc : List String) (x : String),
      x ∈ ps.foldl (fun a cp => if g cp then listInsert a cp.1 else a) acc →
      x ∈ acc ∨ x ∈ ps.map Prod.fst := by
  intro ps
  induction ps with
  | nil => intro acc x hx; exact Or.inl (by simpa using hx)
  | cons p t ih =>
    intro acc x hx
    simp only [List.foldl_cons] at hx
    rcases ih _ x hx with hx2 | hx2
    · by_cases hg : g p = true
      · rw [if_pos hg] at hx2
        rcases mem_listInsert.mp hx2 with h | rfl
        · exact Or.inl h
        · exact Or.inr (by simp)
      · rw [if_neg hg] at hx2
        exact Or.inl hx2
    · refine Or.inr ?_
      simp only [List.map_cons]
      exact List.mem_cons_of_mem _ hx2

theorem patterns_foldl_nodup (g : String × List (String × Rat) → Bool) :
    ∀ (ps : List (String × List (String × Rat))) {acc : List String}, acc.Nodup →
      (ps.foldl (fun a cp => if g cp then listInsert a cp.1 else a) acc).Nodup := by
  intro ps
  induction ps with
  | nil => intro acc h; simpa using h
  | cons p t ih =>
    intro acc h
    simp only [List.foldl_cons]
    apply ih
    by_cases hg : g p = true
    · rw [if_pos hg]; exact listInsert_nodup h
    · rwa [if_neg hg]

theorem knownCats_vocab {name : String} : ∀ x ∈ knownCats name, x ∈ CATEGORY_VOCAB := by
  intro x hx
  unfold knownCats at hx
  obtain ⟨p, hp, rfl⟩ := List.mem_map.mp hx
  have hp2 : p ∈ KNOWN_STAPLES := List.mem_of_mem_filter hp
  have hmem : p.1 ∈ KNOWN_STAPLES.map Prod.fst := List.mem_map_of_mem Prod.fst hp2
  have hmap : KNOWN_STAPLES.map Prod.fst =
      ["ramp", "draw", "removal", "board_wipe", "counterspell", "tutor"] := by rfl
  rw [hmap] at hmem
  have hsub : ∀ y ∈ (["ramp", "draw", "removal", "board_wipe", "counterspell", "tutor"] : List String),
      y ∈ CATEGORY_VOCAB := by decide
  exact hsub p.1 hmem

theorem categorizeSeeded_nodup (card : CardData) : (categorizeSeeded card).Nodup := by
  unfold categorizeSeeded
  by_cases h : card.is_land = true
  · rw [if_pos h]
    exact listInsert_nodup (foldl_listInsert_nodup List.nodup_nil)
  · rw [if_neg h]
    exact foldl_listInsert_nodup List.nodup_nil

theorem categorizeSeeded_vocab (card : CardData) :
    ∀ x ∈ categorizeSeeded card, x ∈ CATEGORY_VOCAB := by
  intro x hx
  unfold categorizeSeeded at hx
  have hbase : ∀ y, y ∈ (knownCats card.name).foldl listInsert [] → y ∈ CATEGORY_VOCAB := by
    intro y hy
    rcases mem_foldl_listInsert.mp hy with hy2 | hy2
    · simp at hy2
    · exact knownCats_vocab y hy2
  by_cases h : card.is_land = true
  · rw [if_pos h] at hx
    rcases mem_listInsert.mp hx with hx2 | rfl
    · exact hbase x hx2
    · decide
  · rw [if_neg h] at hx
    exact hbase x hx

theorem categorizeSeeded_land (card : CardData) (h : card.is_land = true) :
    "land" ∈ categorizeSeeded card := by
  unfold categorizeSeeded
  rw [if_pos h]
  exact mem_listInsert.mpr (Or.inr rfl)

theorem categorizeFull_nodup (search : String → String → Bool) (card : CardData) :
    (categorizeFull search card).Nodup := by
  unfold categorizeFull
  dsimp only
  have h2 : (CATEGORY_PATTERNS.foldl
      (fun acc cp => if cp.2.any (fun pw => search pw.1 card.oracle_text) then listInsert acc cp.1 else acc)
      (categorizeSeeded card)).Nodup :=
    patterns_foldl_nodup _ CATEGORY_PATTERNS (categorizeSeeded_nodup card)
  by_cases h3 : (strContainsSub card.type_line "Land" = true ∧
      ¬ (CATEGORY_PATTERNS.foldl
        (fun acc cp => if cp.2.any (fun pw => search pw.1 card.oracle_text) then listInsert acc cp.1 else acc)
        (categorizeSeeded card)).contains "land" = true)
  · rw [if_pos h3]
    split
    · exact List.nodup_singleton _
    · exact listInsert_nodup h2
  · rw [if_neg h3]
    split
    · exact List.nodup_singleton _
    · exact h2

theorem categorizeFull_vocab (search : String → String → Bool) (card : CardData) :
    ∀ x ∈ categorizeFull search card, x ∈ CATEGORY_VOCAB := by
  intro x hx
  unfold categorizeFull at hx
  dsimp only at hx
  have h2 : ∀ y, y ∈ CATEGORY_PATTERNS.foldl
      (fun acc cp => if cp.2.any (fun pw => search pw.1 card.oracle_text) then listInsert acc cp.1 else acc)
      (categorizeSeeded card) → y ∈ CATEGORY_VOCAB := by
    intro y hy
    rcases mem_patterns_foldl _ CATEGORY_PATTERNS _ y hy with hy2 | hy2
    · exact categorizeSeeded_vocab card y hy2
    · have hmap : CATEGORY_PATTERNS.map Prod.fst =
          ["ramp", "draw", "removal", "board_wipe", "counterspell", "tutor",
           "protection", "recursion"] := by rfl
      rw [hmap] at hy2
      have hsub : ∀ z ∈ (["ramp", "draw", "removal", "board_wipe", "counterspell", "tutor",
          "protection", "recursion"] : List String), z ∈ CATEGORY_VOCAB := by decide
      exact hsub y hy2
  split at hx
  · split at hx
    · rcases List.mem_singleton.mp hx with rfl
      decide
    · rcases mem_listInsert.mp hx with hy | rfl
      · exact h2 x hy
      · decide
  · split at hx
    · rcases List.mem_singleton.mp hx with rfl
      decide
    · exact h2 x hx

theorem ifEmpty_ne_nil (l : List String) : (if l.isEmpty then (["other"] : List String) else l) ≠ [] := by
  by_cases h : l.isEmpty = true
  · rw [if_pos h]
    simp
  · rw [if_neg h]
    intro hnil
    rw [hnil] at h
    simp at h

theorem categorizeFull_ne_nil (search : String → String → Bool) (card : CardData) :
    categorizeFull search card ≠ [] := by
  unfold categorizeFull
  dsimp only
  split
  · exact ifEmpty_ne_nil _
  · exact ifEmpty_ne_nil _

/-- The full behavioural envelope of `categorize_card`: its output is sorted,
duplicate-free, non-empty and drawn from the fixed vocabulary. -/
theorem categorize_card_spec (search : String → String → Bool) (card : CardData) :
    (categorize_card search card).Pairwise (fun a b => strLe a b = true)
    ∧ (categorize_card search card).Nodup
    ∧ categorize_card search card ≠ []
    ∧ ∀ l ∈ categorize_card search card, l ∈ CATEGORY_VOCAB := by
  unfold categorize_card
  split
  · next hc =>
    refine ⟨pySort_sorted strLe_total strLe_trans _, pySort_nodup (categorizeSeeded_nodup card), ?_, ?_⟩
    · exact pySortedStr_ne_nil (List.ne_nil_of_mem (categorizeSeeded_land card hc.1))
    · intro l hl
      exact categorizeSeeded_vocab card l (mem_pySortedStr.mp hl)
  · refine ⟨pySort_sorted strLe_total strLe_trans _, pySort_nodup (categorizeFull_nodup search card), ?_, ?_⟩
    · exact pySortedStr_ne_nil (categorizeFull_ne_nil search card)
    · intro l hl
      exact categorizeFull_vocab search card l (mem_pySortedStr.mp hl)

/-! ## Claim C1 -/

/-- C1: for every card input and every regex matcher, `categorize_card`
returns a non-empty collection of labels, every label is drawn from the fixed
vocabulary (the eight pattern categories plus `"land"` and `"other"`), and
two calls with identical input return identical output. -/
theorem C1_categorize_total_vocab_deterministic (search : String → String → Bool) (card : CardData) :
    categorize_card search card ≠ []
    ∧ (∀ l ∈ categorize_card search card, l ∈ CATEGORY_VOCAB)
    ∧ categorize_card search card = categorize_card search card := by
  obtain ⟨-, -, hne, hvocab⟩ := categorize_card_spec search card
  exact ⟨hne, hvocab, rfl⟩

/-! ## Claim C7 -/

/-- C7: a land card whose name is not in the curated staples table is
categorized as exactly `["land"]`, for every matcher whatsoever — in
particular even for a matcher that matches every pattern, so the pattern
table is never consulted for such cards. -/
theorem C7_land_short_circuit (search : String → String → Bool) (card : CardData)
    (hland : card.is_land = true) (hstaple : knownCats card.name = []) :
    categorize_card search card = ["land"] := by
  have hseed : categorizeSeeded card = ["land"] := by
    unfold categorizeSeeded
    rw [hstaple, if_pos hland]
    rfl
  unfold categorize_card
  rw [hseed]
  rw [if_pos ⟨hland, by rfl⟩]
  rfl

/-- C7 witness: a fetch land whose oracle text would match ramp/tutor
patterns (the matcher here says every pattern matches) still comes out as
exactly `["land"]`. -/
theorem C7_land_short_circuit_witness :
    categorize_card (fun _ _ => true)
      ⟨"Evolving Wilds", "Land", "search your library for a basic land card and put it onto the battlefield", true⟩
      = ["land"] :=
  C7_land_short_circuit (fun _ _ => true) _ (by rfl) (by decide)

/-! ## Claim C9 -/

theorem lexLe_refl : ∀ l : List Char, lexLe l l = true := by
  intro l
  induction l with
  | nil => rfl
  | cons a t ih =>
    simp only [lexLe, lt_self_iff_false, if_false]
    exact ih

theorem strLe_refl (s : String) : strLe s s = true := lexLe_refl s.toList

theorem sorted_headD_min {l : List String}
    (hs : l.Pairwise (fun a b => strLe a b = true)) (hne : l ≠ []) :
    l.headD "other" ∈ l ∧ ∀ x ∈ l, strLe (l.headD "other") x = true := by
  cases l with
  | nil => exact absurd rfl hne
  | cons a t =>
    obtain ⟨ha, -⟩ := List.pairwise_cons.mp hs
    refine ⟨List.mem_cons_self _ _, ?_⟩
    intro x hx
    rcases List.mem_cons.mp hx with rfl | hx
    · exact strLe_refl x
    · exact ha x hx

theorem mem_topCardsBucket {p : TopPayload} {cat : String} {e : TopEntry} :
    e ∈ topCardsBucket p cat ↔ (cat, e) ∈ p.entries := by
  unfold topCardsBucket
  rw [mem_pySort]
  constructor
  · intro h
    obtain ⟨pr, hpr, rfl⟩ := List.mem_map.mp h
    obtain ⟨hmem, hcat⟩ := List.mem_filter.mp hpr
    have : pr = (cat, pr.2) := by
      have hc : pr.1 = cat := by simpa using hcat
      exact Prod.ext hc rfl
    rwa [← this]
  · intro h
    refine List.mem_map.mpr ⟨(cat, e), ?_, rfl⟩
    exact List.mem_filter.mpr ⟨h, by simp⟩

/-- C9: `categorize_card` always returns an alphabetically sorted,
duplicate-free list; consequently, whenever a card's stored categories were
produced by `categorize_card`, `get_top_cards` files the card under its
alphabetically smallest label (its `cats[0]` primary). -/
theorem C9_sorted_output_primary_is_min :
    (∀ (search : String → String → Bool) (card : CardData),
        (categorize_card search card).Pairwise (fun a b => strLe a b = true)
        ∧ (categorize_card search card).Nodup)
    ∧ (∀ (db : DB) (colors : Option (List Char)) (bracket : Option Int) (minApp : Nat)
        (mode : String) (payload : TopPayload) (cat : String) (e : TopEntry)
        (c : Card) (search : String → String → Bool) (cd : CardData),
        getTopCards db colors bracket minApp mode = .ok payload →
        e ∈ topCardsBucket payload cat →
        dbFindCard db e.name = some c →
        c.categories = categorize_card search cd →
        cat ∈ c.categories ∧ ∀ l ∈ c.categories, strLe cat l = true) := by
  constructor
  · intro search card
    obtain ⟨hs, hn, -, -⟩ := categorize_card_spec search card
    exact ⟨hs, hn⟩
  · intro db colors bracket minApp mode payload cat e c search cd hok hbucket hfind hcats
    have hpair := mem_topCardsBucket.mp hbucket
    -- extract the payload's construction
    unfold getTopCards at hok
    dsimp only at hok
    split at hok
    · exact absurd hok (by simp)
    · have hentries : payload.entries =
          (topGroupedRows (fpRows db colors bracket mode) minApp).map
            (topPrimaryAndEntry db (fpDeckIds db colors bracket mode).length) := by
        cases hok
        rfl
      rw [hentries] at hpair
      obtain ⟨gp, -, hgp⟩ := List.mem_map.mp hpair
      -- unfold the entry construction
      unfold topPrimaryAndEntry at hgp
      dsimp only at hgp
      have hname : e.name = gp.1 := by
        have := congrArg (fun q => q.2.name) hgp
        simpa using this.symm
      have hcat : cat = (match dbFindCard db gp.1 with
          | some card => card.categories
          | none => ["other"]).headD "other" := by
        have := congrArg (fun q => q.1) hgp
        simpa using this.symm
      rw [← hname, hfind] at hcat
      dsimp only at hcat
      -- c.categories is a categorize_card output: sorted and non-empty
      obtain ⟨hs, -, hne, -⟩ := categorize_card_spec search cd
      rw [← hcats] at hs hne
      obtain ⟨hmem, hmin⟩ := sorted_headD_min hs hne
      rw [← hcat] at hmem hmin
      exact ⟨hmem, hmin⟩

/-- C9 witness: in a concrete database, the card `"Foo"`, whose stored
categories are `categorize_card`'s output `["other"]`, is filed under
`"other"`, which is a member of and minimal in its category list. -/
theorem C9_sorted_output_primary_is_min_witness :
    "other" ∈ (Card.categories ⟨"Foo", 2, "Creature", "", false, true, ["other"]⟩)
    ∧ ∀ l ∈ (Card.categories ⟨"Foo", 2, "Creature", "", false, true, ["other"]⟩),
        strLe "other" l = true :=
  C9_sorted_output_primary_is_min.2 topDB none none 2 "exact"
    ⟨2, [("other", ⟨"Foo", 2, 100, some 2, "Creature"⟩)]⟩ "other"
    ⟨"Foo", 2, 100, some 2, "Creature"⟩
    ⟨"Foo", 2, "Creature", "", false, true, ["other"]⟩
    (fun _ _ => false) ⟨"Foo", "Creature", "", false⟩
    (by decide) (by decide) (by decide) (by decide)

/-! ## Statistics-aggregator lemmas -/

theorem bumpAssoc_sum {κ : Type} [DecidableEq κ] :
    ∀ (m : List (κ × Int)) (k : κ) (q : Int),
      ((bumpAssoc m k q).map Prod.snd).sum = (m.map Prod.snd).sum + q := by
  intro m k q
  induction m with
  | nil => simp [bumpAssoc]
  | cons p t ih =>
    simp only [bumpAssoc]
    by_cases h : p.1 = k
    · rw [if_pos h]
      simp only [List.map_cons, List.sum_cons]
      ring
    · rw [if_neg h]
      simp only [List.map_cons, List.sum_cons, ih]
      ring

theorem bumpAssoc_keys_of_mem {κ : Type} [DecidableEq κ] :
    ∀ (m : List (κ × Int)) (k : κ) (q : Int), k ∈ m.map Prod.fst →
      (bumpAssoc m k q).map Prod.fst = m.map Prod.fst := by
  intro m k q
  induction m with
  | nil => intro h; simp at h
  | cons p t ih =>
    intro h
    simp only [bumpAssoc]
    by_cases hp : p.1 = k
    · rw [if_pos hp]
      simp
    · rw [if_neg hp]
      simp only [List.map_cons]
      congr 1
      apply ih
      simp only [List.map_cons, List.mem_cons] at h
      rcases h with h2 | h2
      · exact absurd h2.symm hp
      · exact h2

theorem mem_seven {k : Int} (h0 : 0 ≤ k) (h6 : k ≤ 6) :
    k ∈ ([0, 1, 2, 3, 4, 5, 6] : List Int) := by
  simp only [List.mem_cons, List.not_mem_nil, or_false]
  omega

theorem catFold_sum (q : Int) :
    ∀ (cats : List String) (m : List (String × Int)),
      ((cats.foldl (fun acc cat => bumpAssoc acc cat q) m).map Prod.snd).sum
        = (m.map Prod.snd).sum + q * (cats.length : Int) := by
  intro cats
  induction cats with
  | nil => intro m; simp
  | cons c t ih =>
    intro m
    simp only [List.foldl_cons]
    rw [ih, bumpAssoc_sum]
    simp only [List.length_cons]
    push_cast
    ring

theorem statsStep_delta (st : StatsState) (r : DeckCard × Option Card)
    (hkeys : st.curve.map Prod.fst = [0, 1, 2, 3, 4, 5, 6])
    (hcmc : 0 ≤ rowCmc r) :
    (statsStep st r).curve.map Prod.fst = [0, 1, 2, 3, 4, 5, 6]
    ∧ (statsStep st r).total = st.total
        + (if r.1.board = "commander" then 0 else r.1.quantity)
    ∧ (statsStep st r).land_count = st.land_count
        + (if r.1.board = "commander" then 0 else if rowIsLand r then r.1.quantity else 0)
    ∧ (statsStep st r).nonland_count = st.nonland_count
        + (if r.1.board = "commander" then 0 else if rowIsLand r then 0 else r.1.quantity)
    ∧ ((statsStep st r).curve.map Prod.snd).sum = (st.curve.map Prod.snd).sum
        + (if r.1.board = "commander" then 0 else if rowIsLand r then 0 else r.1.quantity)
    ∧ ((statsStep st r).category_counts.map Prod.snd).sum
        = (st.category_counts.map Prod.snd).sum
        + (if r.1.board = "commander" then 0 else r.1.quantity * ((rowCats r).length : Int)) := by
  have hbucket : 0 ≤ min (pyInt (rowCmc r)) 6 ∧ min (pyInt (rowCmc r)) 6 ≤ 6 := by
    constructor
    · have : 0 ≤ pyInt (rowCmc r) := by
        unfold pyInt
        rw [if_pos hcmc]
        exact Int.floor_nonneg.mpr hcmc
      omega
    · exact min_le_right _ _
  have hkmem : min (pyInt (rowCmc r)) 6 ∈ st.curve.map Prod.fst := by
    rw [hkeys]
    exact mem_seven hbucket.1 hbucket.2
  unfold statsStep
  dsimp only
  by_cases hb : r.1.board = "commander"
  · simp [hb]
    exact hkeys
  · rw [if_neg hb]
    simp only [hb, if_false]
    by_cases hl : rowIsLand r = true
    · rw [if_pos hl]
      simp only [hl, if_true]
      by_cases hc2 : rowIsCreature r = true
      · rw [if_pos hc2]
        by_cases hi : (strContainsSub (rowTypeLine r) "Instant" || strContainsSub (rowTypeLine r) "Sorcery") = true
        · rw [if_pos hi]
          refine ⟨hkeys, by simp, by simp, by simp, by simp, catFold_sum _ _ _⟩
        · rw [if_neg hi]
          refine ⟨hkeys, by simp, by simp, by simp, by simp, catFold_sum _ _ _⟩
      · rw [if_neg hc2]
        by_cases hi : (strContainsSub (rowTypeLine r) "Instant" || strContainsSub (rowTypeLine r) "Sorcery") = true
        · rw [if_pos hi]
          refine ⟨hkeys, by simp, by simp, by simp, by simp, catFold_sum _ _ _⟩
        · rw [if_neg hi]
          refine ⟨hkeys, by simp, by simp, by simp, by simp, catFold_sum _ _ _⟩
    · rw [if_neg hl]
      simp only [hl, if_false]
      have hknew : (bumpAssoc st.curve (min (pyInt (rowCmc r)) 6) r.1.quantity).map Prod.fst
          = [0, 1, 2, 3, 4, 5, 6] := by
        rw [bumpAssoc_keys_of_mem _ _ _ hkmem, hkeys]
      have hsum := bumpAssoc_sum st.curve (min (pyInt (rowCmc r)) 6) r.1.quantity
      by_cases hc2 : rowIsCreature r = true
      · rw [if_pos hc2]
        by_cases hi : (strContainsSub (rowTypeLine r) "Instant" || strContainsSub (rowTypeLine r) "Sorcery") = true
        · rw [if_pos hi]
          exact ⟨hknew, by simp, by simp, by simp, hsum, catFold_sum _ _ _⟩
        · rw [if_neg hi]
          exact ⟨hknew, by simp, by simp, by simp, hsum, catFold_sum _ _ _⟩
      · rw [if_neg hc2]
        by_cases hi : (strContainsSub (rowTypeLine r) "Instant" || strContainsSub (rowTypeLine r) "Sorcery") = true
        · rw [if_pos hi]
          exact ⟨hknew, by simp, by simp, by simp, hsum, catFold_sum _ _ _⟩
        · rw [if_neg hi]
          exact ⟨hknew, by simp, by simp, by simp, hsum, catFold_sum _ _ _⟩

theorem rowsTotal_cons (r : DeckCard × Option Card) (t : List (DeckCard × Option Card)) :
    rowsTotal (r :: t) = (if r.1.board = "commander" then 0 else r.1.quantity) + rowsTotal t := by
  unfold rowsTotal
  simp

theorem rowsLand_cons (r : DeckCard × Option Card) (t : List (DeckCard × Option Card)) :
    rowsLand (r :: t) = (if r.1.board = "commander" then 0
      else if rowIsLand r then r.1.quantity else 0) + rowsLand t := by
  unfold rowsLand
  simp

theorem rowsNonland_cons (r : DeckCard × Option Card) (t : List (DeckCard × Option Card)) :
    rowsNonland (r :: t) = (if r.1.board = "commander" then 0
      else if rowIsLand r then 0 else r.1.quantity) + rowsNonland t := by
  unfold rowsNonland
  simp

theorem rowsCatWeight_cons (r : DeckCard × Option Card) (t : List (DeckCard × Option Card)) :
    rowsCatWeight (r :: t) = (if r.1.board = "commander" then 0
      else r.1.quantity * ((rowCats r).length : Int)) + rowsCatWeight t := by
  unfold rowsCatWeight
  simp

theorem rowsTotal_split : ∀ rows : List (DeckCard × Option Card),
    rowsTotal rows = rowsLand rows + rowsNonland rows := by
  intro rows
  induction rows with
  | nil => rfl
  | cons r t ih =>
    rw [rowsTotal_cons, rowsLand_cons, rowsNonland_cons, ih]
    by_cases hb : r.1.board = "commander"
    · simp only [hb, if_true]
      ring
    · by_cases hl : rowIsLand r = true
      · simp [hb, hl]
        try ring
      · simp [hb, hl]
        try ring

theorem statsFold_from : ∀ (rows : List (DeckCard × Option Card)) (st : StatsState),
    st.curve.map Prod.fst = [0, 1, 2, 3, 4, 5, 6] →
    (∀ r ∈ rows, 0 ≤ rowCmc r) →
    (rows.foldl statsStep st).curve.map Prod.fst = [0, 1, 2, 3, 4, 5, 6]
    ∧ (rows.foldl statsStep st).total = st.total + rowsTotal rows
    ∧ (rows.foldl statsStep st).land_count = st.land_count + rowsLand rows
    ∧ (rows.foldl statsStep st).nonland_count = st.nonland_count + rowsNonland rows
    ∧ ((rows.foldl statsStep st).curve.map Prod.snd).sum
        = (st.curve.map Prod.snd).sum + rowsNonland rows
    ∧ ((rows.foldl statsStep st).category_counts.map Prod.snd).sum
        = (st.category_counts.map Prod.snd).sum + rowsCatWeight rows := by
  intro rows
  induction rows with
  | nil =>
    intro st hk _
    refine ⟨hk, ?_, ?_, ?_, ?_, ?_⟩ <;> simp [rowsTotal, rowsLand, rowsNonland, rowsCatWeight]
  | cons r t ih =>
    intro st hk hcmc
    simp only [List.foldl_cons]
    obtain ⟨dk, dt, dl, dn, dcs, dcat⟩ := statsStep_delta st r hk (hcmc r (List.mem_cons_self r t))
    obtain ⟨ik, it, il, inl, ics, icat⟩ :=
      ih (statsStep st r) dk (fun x hx => hcmc x (List.mem_cons_of_mem r hx))
    refine ⟨ik, ?_, ?_, ?_, ?_, ?_⟩
    · rw [it, dt, rowsTotal_cons]; ring
    · rw [il, dl, rowsLand_cons]; ring
    · rw [inl, dn, rowsNonland_cons]; ring
    · rw [ics, dcs, rowsNonland_cons]; ring
    · rw [icat, dcat, rowsCatWeight_cons]; ring

theorem statsRows_cmc_nonneg (db : DB) (deck_id : Nat) (h : ∀ c ∈ db.cards, 0 ≤ c.cmc) :
    ∀ r ∈ statsRows db deck_id, 0 ≤ rowCmc r := by
  intro r hr
  unfold statsRows at hr
  obtain ⟨p, -, rfl⟩ := List.mem_map.mp hr
  unfold rowCmc
  cases hfind : dbFindCard db p.2.card_name with
  | none => simp
  | some c =>
    have hc : c ∈ db.cards := by
      unfold dbFindCard at hfind
      exact List.mem_of_find?_eq_some hfind
    simpa using h c hc

theorem statsFold_filter_commander :
    ∀ (rows : List (DeckCard × Option Card)) (st : StatsState),
      rows.foldl statsStep st
        = (rows.filter (fun r => !(r.1.board = "commander"))).foldl statsStep st := by
  intro rows
  induction rows with
  | nil => intro st; rfl
  | cons r t ih =>
    intro st
    by_cases hb : r.1.board = "commander"
    · have hstep : statsStep st r = st := by
        unfold statsStep
        rw [if_pos hb]
      have hfil : (r :: t).filter (fun r => !(r.1.board = "commander"))
          = t.filter (fun r => !(r.1.board = "commander")) := by
        simp [List.filter_cons, hb]
      rw [hfil, List.foldl_cons, hstep]
      exact ih st
    · have hfil : (r :: t).filter (fun r => !(r.1.board = "commander"))
          = r :: t.filter (fun r => !(r.1.board = "commander")) := by
        simp [List.filter_cons, hb]
      rw [hfil, List.foldl_cons, List.foldl_cons]
      exact ih (statsStep st r)

/-! ## Claim C2 -/

/-- C2 counterexample: in a deck whose single mainboard card (quantity 1)
carries the two labels `["draw", "ramp"]`, the category-count values sum to
2 while the total mainboard quantity is 1 — the sums are not equal as the
claim states. -/
theorem C2_category_sum_counterexample :
    ((update_deck_stats multiCatDB 1).category_counts.map Prod.snd).sum = 2
    ∧ (update_deck_stats multiCatDB 1).total_cards = 1
    ∧ ((update_deck_stats multiCatDB 1).category_counts.map Prod.snd).sum
        ≠ (update_deck_stats multiCatDB 1).total_cards := by decide

/-- C2 (amended): after `update_deck_stats`, the seven curve buckets sum to
the stored total minus the stored land count (so the curve drops and
double-counts nothing), and the category-count values sum to the
quantity-weighted number of stored labels over the non-commander rows —
each card is counted once per label it carries, not once in total.
(Totals count every non-commander board; mana values are assumed
non-negative, as Scryfall data guarantees.) -/
theorem C2_aggregation_sums (db : DB) (deck_id : Nat)
    (hcmc : ∀ c ∈ db.cards, 0 ≤ c.cmc) :
    (update_deck_stats db deck_id).curve.map Prod.fst = [0, 1, 2, 3, 4, 5, 6]
    ∧ ((update_deck_stats db deck_id).curve.map Prod.snd).sum
        = (update_deck_stats db deck_id).total_cards - (update_deck_stats db deck_id).land_count
    ∧ ((update_deck_stats db deck_id).category_counts.map Prod.snd).sum
        = rowsCatWeight (statsRows db deck_id) := by
  have h := statsFold_from (statsRows db deck_id) initStats (by rfl)
    (statsRows_cmc_nonneg db deck_id hcmc)
  obtain ⟨hk, ht, hl, -, hcs, hcat⟩ := h
  have e1 : (update_deck_stats db deck_id).curve
      = ((statsRows db deck_id).foldl statsStep initStats).curve := rfl
  have e2 : (update_deck_stats db deck_id).total_cards
      = ((statsRows db deck_id).foldl statsStep initStats).total := rfl
  have e3 : (update_deck_stats db deck_id).land_count
      = ((statsRows db deck_id).foldl statsStep initStats).land_count := rfl
  have e4 : (update_deck_stats db deck_id).category_counts
      = ((statsRows db deck_id).foldl statsStep initStats).category_counts := rfl
  refine ⟨by rw [e1]; exact hk, ?_, ?_⟩
  · rw [e1, e2, e3, ht, hl, hcs]
    have hz1 : (initStats.curve.map Prod.snd).sum = 0 := by decide
    have hz2 : initStats.total = 0 := by decide
    have hz3 : initStats.land_count = 0 := by decide
    rw [hz1, hz2, hz3, rowsTotal_split]
    ring
  · rw [e4, hcat]
    have hz : (initStats.category_counts.map Prod.snd).sum = 0 := by decide
    rw [hz]
    ring

/-- C2 witness: the amended sums at the concrete two-label deck. -/
theorem C2_aggregation_sums_witness :
    (update_deck_stats multiCatDB 1).curve.map Prod.fst = [0, 1, 2, 3, 4, 5, 6]
    ∧ ((update_deck_stats multiCatDB 1).curve.map Prod.snd).sum
        = (update_deck_stats multiCatDB 1).total_cards - (update_deck_stats multiCatDB 1).land_count
    ∧ ((update_deck_stats multiCatDB 1).category_counts.map Prod.snd).sum
        = rowsCatWeight (statsRows multiCatDB 1) :=
  C2_aggregation_sums multiCatDB 1 (by decide)

/-! ## Claim C3 -/

/-- C3 counterexample: a deck whose only deck-card row is a sideboard card of
quantity 1 gets `total_cards = 1`, and removing the sideboard row changes
the stored statistics — sideboard entries do contribute, contradicting the
claim that they contribute nothing. -/
theorem C3_sideboard_counted_counterexample :
    (update_deck_stats sideboardDB 1).total_cards = 1
    ∧ update_deck_stats sideboardDB 1 ≠ update_deck_stats sideboardFreeDB 1 := by decide

/-- C3 (amended): `update_deck_stats` computes every statistic over the
non-commander rows only — rows whose board is `"commander"` contribute
nothing to any stored statistic (dropping them changes no output), but
`"sideboard"` rows are included like mainboard ones. -/
theorem C3_commander_rows_contribute_nothing (db : DB) (deck_id : Nat) :
    update_deck_stats db deck_id
      = deckStatsOfRows ((statsRows db deck_id).filter (fun r => !(r.1.board = "commander"))) := by
  unfold update_deck_stats deckStatsOfRows statsFold
  rw [← statsFold_filter_commander]

/-! ## Claim C10 -/

/-- C10: a non-commander deck card with no matching `cards` row (`none`
join result, i.e. all joined columns NULL) is still processed without
failure: its quantity enters the total, it is treated as a non-land,
non-creature, non-instant card of mana value 0 — entering the non-land
count (the average-mana-value denominator), leaving the mana-value sum
unchanged, bumping curve bucket 0 — and it adds nothing to the category
counts (every other field is left unchanged). -/
theorem C10_missing_card_row (st : StatsState) (dc : DeckCard)
    (hb : dc.board ≠ "commander") :
    statsStep st (dc, none) =
      { st with total := st.total + dc.quantity,
                nonland_count := st.nonland_count + dc.quantity,
                curve := bumpAssoc st.curve 0 dc.quantity } := by
  unfold statsStep
  dsimp only
  rw [if_neg hb]
  have hland : rowIsLand (dc, (none : Option Card)) = false := rfl
  have hcreat : rowIsCreature (dc, (none : Option Card)) = false := rfl
  have htype : rowTypeLine (dc, (none : Option Card)) = "" := rfl
  have hcmc : rowCmc (dc, (none : Option Card)) = 0 := rfl
  have hcats : rowCats (dc, (none : Option Card)) = [] := rfl
  rw [hland, hcreat, htype, hcmc, hcats]
  have hkey : min (pyInt 0) 6 = 0 := by decide
  have hinst : (strContainsSub "" "Instant" || strContainsSub "" "Sorcery") = false := by decide
  rw [hkey, hinst]
  simp

/-- C10 witness: a concrete accumulator state and a concrete unmatched
mainboard card. -/
theorem C10_missing_card_row_witness :
    statsStep ⟨5, 7, 3, 2, 1, 1, [(0, 1), (1, 0), (2, 2), (3, 0), (4, 0), (5, 0), (6, 0)], [("ramp", 2)]⟩
        (⟨"Ghost Card", 2, "mainboard"⟩, none) =
      { total := 7, cmc_sum := 7, nonland_count := 5, land_count := 2,
        creature_count := 1, instant_sorcery := 1,
        curve := [(0, 3), (1, 0), (2, 2), (3, 0), (4, 0), (5, 0), (6, 0)],
        category_counts := [("ramp", 2)] } := by
  have h := C10_missing_card_row
    ⟨5, 7, 3, 2, 1, 1, [(0, 1), (1, 0), (2, 2), (3, 0), (4, 0), (5, 0), (6, 0)], [("ramp", 2)]⟩
    ⟨"Ghost Card", 2, "mainboard"⟩ (by decide)
  rw [h]
  decide

/-! ## Claim C6 -/

theorem wubrgLe_total : ∀ a b : Char,
    (fun a b => decide (wubrgIdx a ≤ wubrgIdx b)) a b = true
    ∨ (fun a b => decide (wubrgIdx a ≤ wubrgIdx b)) b a = true := by
  intro a b
  rcases Nat.le_total (wubrgIdx a) (wubrgIdx b) with h | h
  · left; exact decide_eq_true h
  · right; exact decide_eq_true h

theorem wubrgLe_trans : ∀ a b c : Char,
    (fun a b => decide (wubrgIdx a ≤ wubrgIdx b)) a b = true →
    (fun a b => decide (wubrgIdx a ≤ wubrgIdx b)) b c = true →
    (fun a b => decide (wubrgIdx a ≤ wubrgIdx b)) a c = true := by
  intro a b c hab hbc
  exact decide_eq_true (Nat.le_trans (of_decide_eq_true hab) (of_decide_eq_true hbc))

theorem colorKey_idem (cs : List Char) :
    colorKey ((colorKey cs).toList) = colorKey cs := by
  unfold colorKey
  have htoList : (String.mk (pySort (fun a b => wubrgIdx a ≤ wubrgIdx b) cs)).toList
      = pySort (fun a b => wubrgIdx a ≤ wubrgIdx b) cs := rfl
  rw [htoList]
  congr 1
  exact pySort_of_sorted (pySort_sorted wubrgLe_total wubrgLe_trans cs)

theorem mem_matchingDeckIds {db : DB} {d : Deck} (hd : d ∈ db.decks)
    {colors : Option (List Char)} {bracket : Option Int} {ccmc : Option Rat}
    {cname : Option String} {mode : String}
    (hm : deckMatches colors bracket ccmc cname mode d = true) :
    d.id ∈ matchingDeckIds db colors bracket ccmc cname mode := by
  unfold matchingDeckIds
  exact List.mem_map.mpr ⟨d, List.mem_filter.mpr ⟨hd, hm⟩, rfl⟩

/-- C6: for every stored deck, `exact`-mode filtering with the deck's own
canonical color key includes the deck; `subset` mode with the full
five-symbol list W,U,B,R,G matches every deck; and `contains` mode with an
empty color list matches every deck (with no other predicates given). -/
theorem C6_filter_mode_identities :
    (∀ (db : DB) (d : Deck) (cs : List Char),
        d ∈ db.decks → d.color_identity_key = colorKey cs →
        d.id ∈ matchingDeckIds db (some d.color_identity_key.toList) none none none "exact")
    ∧ (∀ (db : DB) (d : Deck), d ∈ db.decks →
        d.id ∈ matchingDeckIds db (some ['W', 'U', 'B', 'R', 'G']) none none none "subset")
    ∧ (∀ (db : DB) (d : Deck), d ∈ db.decks →
        d.id ∈ matchingDeckIds db (some []) none none none "contains") := by
  refine ⟨?_, ?_, ?_⟩
  · intro db d cs hd hkey
    apply mem_matchingDeckIds hd
    have hck : colorKey d.color_identity_key.toList = d.color_identity_key := by
      rw [hkey]
      exact colorKey_idem cs
    unfold deckMatches
    simp
    exact hck.symm
  · intro db d hd
    apply mem_matchingDeckIds hd
    rfl
  · intro db d hd
    apply mem_matchingDeckIds hd
    rfl

/-- C6 witness: a concrete Simic deck with canonical key `"UG"`. -/
theorem C6_filter_mode_identities_witness :
    (Deck.id ⟨1, "A", none, "UG", some 2, 0⟩)
        ∈ matchingDeckIds simicDB (some ("UG".toList)) none none none "exact"
    ∧ (Deck.id ⟨1, "A", none, "UG", some 2, 0⟩)
        ∈ matchingDeckIds simicDB (some ['W', 'U', 'B', 'R', 'G']) none none none "subset"
    ∧ (Deck.id ⟨1, "A", none, "UG", some 2, 0⟩)
        ∈ matchingDeckIds simicDB (some []) none none none "contains" :=
  ⟨C6_filter_mode_identities.1 simicDB ⟨1, "A", none, "UG", some 2, 0⟩ ['U', 'G']
      (by decide) (by decide),
   C6_filter_mode_identities.2.1 simicDB ⟨1, "A", none, "UG", some 2, 0⟩ (by decide),
   C6_filter_mode_identities.2.2 simicDB ⟨1, "A", none, "UG", some 2, 0⟩ (by decide)⟩

/-! ## Package-detector lemmas -/

theorem sortedPairs_ne : ∀ {l : List α}, l.Nodup → ∀ {p : α × α}, p ∈ sortedPairs l → p.1 ≠ p.2 := by
  intro l
  induction l with
  | nil => intro _ p hp; simp [sortedPairs] at hp
  | cons a t ih =>
    intro hnd p hp
    obtain ⟨hnot, htl⟩ := List.nodup_cons.mp hnd
    unfold sortedPairs at hp
    rcases List.mem_append.mp hp with hp2 | hp2
    · obtain ⟨b, hb, rfl⟩ := List.mem_map.mp hp2
      intro hcontra
      dsimp at hcontra
      rw [hcontra] at hnot
      exact hnot hb
    · exact ih htl hp2

theorem jaccard_nonneg (rows : List (Nat × DeckCard)) (a b : String) :
    0 ≤ jaccard rows a b := by
  unfold jaccard
  positivity

theorem jaccard_comm (rows : List (Nat × DeckCard)) (a b : String) :
    jaccard rows a b = jaccard rows b a := by
  unfold jaccard
  rw [Finset.inter_comm, Finset.union_comm]

theorem fpCoList_mem {rows : List (Nat × DeckCard)} {t : Rat} {names : List String}
    {e : (String × String) × Rat} (he : e ∈ fpCoList rows t names) :
    e.1 ∈ sortedPairs names ∧ e.2 = jaccard rows e.1.1 e.1.2 ∧ t ≤ e.2 := by
  unfold fpCoList at he
  obtain ⟨p, hp, hfe⟩ := List.mem_filterMap.mp he
  dsimp only at hfe
  split at hfe
  · split at hfe
    · next hj =>
      rcases Option.some_injective _ hfe
      exact ⟨hp, rfl, hj⟩
    · exact absurd hfe (by simp)
  · exact absurd hfe (by simp)

theorem coLookup_ge {rows : List (Nat × DeckCard)} {t : Rat} {names : List String}
    {k : String × String} (h : t ≤ coLookup (fpCoList rows t names) k) :
    t ≤ jaccard rows k.1 k.2 := by
  unfold coLookup at h
  cases hf : (fpCoList rows t names).find? (fun e => e.1 = k) with
  | none =>
    rw [hf] at h
    exact le_trans h (jaccard_nonneg rows k.1 k.2)
  | some e =>
    rw [hf] at h
    have hmem := List.mem_of_find?_eq_some hf
    have hkey : e.1 = k := by
      have := List.find?_some hf
      simpa using this
    obtain ⟨-, hj, -⟩ := fpCoList_mem hmem
    dsimp only at h
    rw [hj, hkey] at h
    exact h

theorem pairKey_cases (c m : String) : pairKey c m = (c, m) ∨ pairKey c m = (m, c) := by
  unfold pairKey
  by_cases h : strLt m c = true
  · right; rw [if_pos h]
  · left; rw [if_neg h]

theorem coLookup_jaccard {rows : List (Nat × DeckCard)} {t : Rat} {names : List String}
    {c m : String} (h : t ≤ coLookup (fpCoList rows t names) (pairKey c m)) :
    t ≤ jaccard rows c m := by
  have h2 := coLookup_ge h
  rcases pairKey_cases c m with hk | hk <;> rw [hk] at h2
  · exact h2
  · rw [jaccard_comm] at h2
    exact h2

theorem growCluster_extend (co : List ((String × String) × Rat)) (t : Rat) (used : List String) :
    ∀ (ns : List String) (cl : List String), ∃ ext, growCluster co t ns used cl = cl ++ ext := by
  intro ns
  induction ns with
  | nil => intro cl; exact ⟨[], by simp [growCluster]⟩
  | cons c ns ih =>
    intro cl
    have hrec : growCluster co t (c :: ns) used cl
        = growCluster co t ns used (if cl.contains c || used.contains c then cl
          else if cl.all (fun m => decide (t ≤ coLookup co (pairKey c m))) then cl ++ [c] else cl) := rfl
    rw [hrec]
    by_cases h1 : (cl.contains c || used.contains c) = true
    · rw [if_pos h1]
      exact ih cl
    · rw [if_neg h1]
      by_cases h2 : cl.all (fun m => decide (t ≤ coLookup co (pairKey c m))) = true
      · rw [if_pos h2]
        obtain ⟨ext, hext⟩ := ih (cl ++ [c])
        exact ⟨[c] ++ ext, by rw [hext, List.append_assoc]⟩
      · rw [if_neg h2]
        exact ih cl

theorem growCluster_nodup (co : List ((String × String) × Rat)) (t : Rat) (used : List String) :
    ∀ (ns : List String) (cl : List String), cl.Nodup → (growCluster co t ns used cl).Nodup := by
  intro ns
  induction ns with
  | nil => intro cl h; exact h
  | cons c ns ih =>
    intro cl h
    have hrec : growCluster co t (c :: ns) used cl
        = growCluster co t ns used (if cl.contains c || used.contains c then cl
          else if cl.all (fun m => decide (t ≤ coLookup co (pairKey c m))) then cl ++ [c] else cl) := rfl
    rw [hrec]
    apply ih
    by_cases h1 : (cl.contains c || used.contains c) = true
    · rw [if_pos h1]
      exact h
    · rw [if_neg h1]
      by_cases h2 : cl.all (fun m => decide (t ≤ coLookup co (pairKey c m))) = true
      · rw [if_pos h2]
        refine List.Nodup.append h (List.nodup_singleton c) ?_
        intro x hx hxc
        rcases List.mem_singleton.mp hxc with rfl
        have hnc : cl.contains x = false := by
          have hfalse : (cl.contains x || used.contains x) = false :=
            Bool.eq_false_iff.mpr h1
          exact (Bool.or_eq_false_iff.mp hfalse).1
        rw [← contains_iff_mem] at hx
        rw [hnc] at hx
        exact Bool.false_ne_true hx
      · rw [if_neg h2]
        exact h

theorem growCluster_pairwiseJ (rows : List (Nat × DeckCard)) (t : Rat) (names0 : List String)
    (used : List String) :
    ∀ (ns : List String) (cl : List String), pairwiseJ rows t cl →
      pairwiseJ rows t (growCluster (fpCoList rows t names0) t ns used cl) := by
  intro ns
  induction ns with
  | nil => intro cl h; exact h
  | cons c ns ih =>
    intro cl h
    have hrec : growCluster (fpCoList rows t names0) t (c :: ns) used cl
        = growCluster (fpCoList rows t names0) t ns used
            (if cl.contains c || used.contains c then cl
             else if cl.all (fun m => decide (t ≤ coLookup (fpCoList rows t names0) (pairKey c m)))
              then cl ++ [c] else cl) := rfl
    rw [hrec]
    apply ih
    by_cases h1 : (cl.contains c || used.contains c) = true
    · rw [if_pos h1]
      exact h
    · rw [if_neg h1]
      by_cases h2 : cl.all (fun m => decide (t ≤ coLookup (fpCoList rows t names0) (pairKey c m))) = true
      · rw [if_pos h2]
        intro a ha b hb hab
        rcases List.mem_append.mp ha with ha2 | ha2 <;> rcases List.mem_append.mp hb with hb2 | hb2
        · exact h a ha2 b hb2 hab
        · rcases List.mem_singleton.mp hb2 with rfl
          have hdec := List.all_eq_true.mp h2 a ha2
          have hle := coLookup_jaccard (of_decide_eq_true hdec)
          rw [jaccard_comm] at hle
          exact hle
        · rcases List.mem_singleton.mp ha2 with rfl
          have hdec := List.all_eq_true.mp h2 b hb2
          exact coLookup_jaccard (of_decide_eq_true hdec)
        · rcases List.mem_singleton.mp ha2 with rfl
          rcases List.mem_singleton.mp hb2 with rfl
          exact absurd rfl hab
      · rw [if_neg h2]
        exact h

theorem mem_interAll : ∀ (l : List (Finset Nat)) (d : Nat), l ≠ [] →
    (d ∈ interAll l ↔ ∀ s ∈ l, d ∈ s) := by
  intro l
  induction l with
  | nil => intro d h; exact absurd rfl h
  | cons s tl ih =>
    intro d _
    cases tl with
    | nil => simp [interAll]
    | cons s2 tl2 =>
      have hrec : interAll (s :: s2 :: tl2) = s ∩ interAll (s2 :: tl2) := rfl
      rw [hrec, Finset.mem_inter, ih d (by simp)]
      constructor
      · rintro ⟨h1, h2⟩ s3 hs3
        rcases List.mem_cons.mp hs3 with rfl | hs3
        · exact h1
        · exact h2 s3 hs3
      · intro hall
        exact ⟨hall s (List.mem_cons_self _ _), fun s3 hs3 => hall s3 (List.mem_cons_of_mem _ hs3)⟩

theorem cardDeckSet_subset {db : DB} {deckIds : List Nat} {n : String} :
    cardDeckSet (mainboardRows db deckIds) n ⊆ deckIds.toFinset := by
  intro d hd
  unfold cardDeckSet at hd
  rw [List.mem_toFinset] at hd
  obtain ⟨r, hr, rfl⟩ := List.mem_map.mp hd
  obtain ⟨hrow, -⟩ := List.mem_filter.mp hr
  unfold mainboardRows at hrow
  obtain ⟨-, hcond⟩ := List.mem_filter.mp hrow
  rw [List.mem_toFinset]
  have hin := (Bool.and_eq_true _ _).mp hcond
  exact contains_iff_mem.mp hin.1

theorem interAll_eq_filter (db : DB) (deckIds : List Nat) (cl : List String) (hne : cl ≠ []) :
    interAll (cl.map (cardDeckSet (mainboardRows db deckIds)))
      = deckIds.toFinset.filter (fun d => ∀ c ∈ cl, d ∈ cardDeckSet (mainboardRows db deckIds) c) := by
  ext d
  rw [Finset.mem_filter]
  have hmaps : cl.map (cardDeckSet (mainboardRows db deckIds)) ≠ [] := by
    intro h
    exact hne (List.map_eq_nil_iff.mp h)
  rw [mem_interAll _ d hmaps]
  constructor
  · intro hall
    have hc : ∀ c ∈ cl, d ∈ cardDeckSet (mainboardRows db deckIds) c := by
      intro c hcm
      exact hall _ (List.mem_map_of_mem _ hcm)
    obtain ⟨c0, hc0⟩ := List.exists_mem_of_ne_nil cl hne
    exact ⟨cardDeckSet_subset (hc c0 hc0), hc⟩
  · rintro ⟨-, hc⟩ s hs
    obtain ⟨c, hcmem, rfl⟩ := List.mem_map.mp hs
    exact hc c hcmem

theorem fpCommonNames_nodup (rows : List (Nat × DeckCard)) (total : Nat) :
    (fpCommonNames rows total).Nodup := by
  unfold fpCommonNames
  exact pySort_nodup (List.Nodup.filter _ (List.nodup_dedup _))

theorem greedyClusters_spec (rows : List (Nat × DeckCard)) (t : Rat) (names : List String)
    (total : Nat) (minCards : Nat) (hnames : names.Nodup) :
    ∀ (l : List ((String × String) × Rat)) (used : List String) (acc : List Package),
      (∀ e ∈ l, e ∈ fpCoList rows t names) →
      (∀ p ∈ acc, goodPackage rows total minCards t p) →
      ∀ p ∈ greedyClusters (fpCoList rows t names) t names rows total minCards l used acc,
        goodPackage rows total minCards t p := by
  intro l
  induction l with
  | nil => intro used acc _ hacc p hp; exact hacc p hp
  | cons e rest ih =>
    intro used acc hl hacc p hp
    simp only [greedyClusters] at hp
    by_cases h1 : (used.contains e.1.1 && used.contains e.1.2) = true
    · rw [if_pos h1] at hp
      exact ih used acc (fun x hx => hl x (List.mem_cons_of_mem e hx)) hacc p hp
    · rw [if_neg h1] at hp
      obtain ⟨hpair, hjac, hge⟩ := fpCoList_mem (hl e (List.mem_cons_self e rest))
      have hne : e.1.1 ≠ e.1.2 := sortedPairs_ne hnames hpair
      have hseed : pairwiseJ rows t [e.1.1, e.1.2] := by
        intro a ha b hb hab
        rcases List.mem_cons.mp ha with rfl | ha2
        · rcases List.mem_cons.mp hb with hb2 | hb2
          · exact absurd hb2.symm hab
          · rcases List.mem_singleton.mp hb2 with rfl
            rw [← hjac]
            exact hge
        · rcases List.mem_singleton.mp ha2 with rfl
          rcases List.mem_cons.mp hb with hb2 | hb2
          · rw [hb2, jaccard_comm, ← hjac]
            exact hge
          · rcases List.mem_singleton.mp hb2 with rfl
            exact absurd rfl hab
      have hseednd : ([e.1.1, e.1.2] : List String).Nodup := by
        simp [hne]
      set cluster := growCluster (fpCoList rows t names) t names used [e.1.1, e.1.2] with hcl
      by_cases h2 : minCards ≤ cluster.length
      · rw [if_pos h2] at hp
        have hgood : goodPackage rows total minCards t (mkPackage rows total cluster) := by
          refine ⟨cluster, ?_, ?_, ?_, h2, rfl⟩
          · obtain ⟨ext, hext⟩ := growCluster_extend (fpCoList rows t names) t used names [e.1.1, e.1.2]
            rw [hcl, hext]
            simp
          · exact growCluster_nodup _ _ _ _ _ hseednd
          · exact growCluster_pairwiseJ rows t names used names _ hseed
        refine ih (cluster.foldl listInsert used) (acc ++ [mkPackage rows total cluster])
          (fun x hx => hl x (List.mem_cons_of_mem e hx)) ?_ p hp
        intro q hq
        rcases List.mem_append.mp hq with hq2 | hq2
        · exact hacc q hq2
        · rcases List.mem_singleton.mp hq2 with rfl
          exact hgood
      · rw [if_neg h2] at hp
        exact ih used acc (fun x hx => hl x (List.mem_cons_of_mem e hx)) hacc p hp

/-! ## Claim C4 -/

/-- C4: every package emitted by `find_packages` has at least `min_cards`
distinct member cards; every pair of distinct members has Jaccard similarity
(over their deck-id sets) at or above the threshold; its reported frequency
is the (rounded) percentage of the filtered deck set whose decks contain
every member card, and hence is at most 100. -/
theorem C4_package_invariants (db : DB) (colors : Option (List Char)) (bracket : Option Int)
    (t : Rat) (minCards : Nat) (mode : String) (payload : FPPayload) (pkg : Package)
    (hok : findPackages db colors bracket t minCards mode = .ok payload)
    (hmem : pkg ∈ payload.packages) :
    minCards ≤ pkg.cards.length
    ∧ pkg.cards.Nodup
    ∧ (∀ a ∈ pkg.cards, ∀ b ∈ pkg.cards, a ≠ b →
        t ≤ jaccard (fpRows db colors bracket mode) a b)
    ∧ pkg.frequency = pyRoundTo
        ((((fpDeckIds db colors bracket mode).toFinset.filter
            (fun d => ∀ c ∈ pkg.cards, d ∈ cardDeckSet (fpRows db colors bracket mode) c)).card : Rat)
          / ((fpDeckIds db colors bracket mode).length : Rat) * 100) 1
    ∧ pkg.deck_count = ((fpDeckIds db colors bracket mode).toFinset.filter
            (fun d => ∀ c ∈ pkg.cards, d ∈ cardDeckSet (fpRows db colors bracket mode) c)).card
    ∧ pkg.frequency ≤ 100 := by
  unfold findPackages at hok
  dsimp only at hok
  split at hok
  · exact absurd hok (by simp)
  · next hguard =>
    have hpay : payload.packages = pySort (fun p q => decide (q.frequency ≤ p.frequency))
        (greedyClusters
          (fpCoList (fpRows db colors bracket mode) t
            (fpCommonNames (fpRows db colors bracket mode) (fpDeckIds db colors bracket mode).length))
          t
          (fpCommonNames (fpRows db colors bracket mode) (fpDeckIds db colors bracket mode).length)
          (fpRows db colors bracket mode) (fpDeckIds db colors bracket mode).length minCards
          (pySort (fun x y => decide (y.2 ≤ x.2))
            (fpCoList (fpRows db colors bracket mode) t
              (fpCommonNames (fpRows db colors bracket mode) (fpDeckIds db colors bracket mode).length)))
          [] []) := by
      cases hok
      rfl
    rw [hpay] at hmem
    rw [mem_pySort] at hmem
    have hgood := greedyClusters_spec
      (fpRows db colors bracket mode) t
      (fpCommonNames (fpRows db colors bracket mode) (fpDeckIds db colors bracket mode).length)
      (fpDeckIds db colors bracket mode).length minCards
      (fpCommonNames_nodup _ _)
      _ [] []
      (fun x hx => mem_pySort.mp hx)
      (fun q hq => absurd hq (List.not_mem_nil q))
      pkg hmem
    obtain ⟨cl, hclne, hclnd, hclpw, hcllen, rfl⟩ := hgood
    have hcards : (mkPackage (fpRows db colors bracket mode) (fpDeckIds db colors bracket mode).length cl).cards
        = pySortedStr cl := rfl
    have hfreqdef : (mkPackage (fpRows db colors bracket mode) (fpDeckIds db colors bracket mode).length cl).frequency
        = pyRoundTo
          (((interAll (cl.map (cardDeckSet (fpRows db colors bracket mode)))).card : Rat)
            / ((fpDeckIds db colors bracket mode).length : Rat) * 100) 1 := rfl
    have hdcdef : (mkPackage (fpRows db colors bracket mode) (fpDeckIds db colors bracket mode).length cl).deck_count
        = (interAll (cl.map (cardDeckSet (fpRows db colors bracket mode)))).card := rfl
    have hinter : interAll (cl.map (cardDeckSet (fpRows db colors bracket mode)))
        = (fpDeckIds db colors bracket mode).toFinset.filter
            (fun d => ∀ c ∈ pySortedStr cl, d ∈ cardDeckSet (fpRows db colors bracket mode) c) := by
      have hrows : fpRows db colors bracket mode
          = mainboardRows db (fpDeckIds db colors bracket mode) := rfl
      rw [hrows, interAll_eq_filter db (fpDeckIds db colors bracket mode) cl hclne]
      apply Finset.filter_congr
      intro d _
      constructor
      · intro hall c hcm
        exact hall c (mem_pySortedStr.mp hcm)
      · intro hall c hcm
        exact hall c (mem_pySortedStr.mpr hcm)
    have hcardle : ((fpDeckIds db colors bracket mode).toFinset.filter
            (fun d => ∀ c ∈ pySortedStr cl, d ∈ cardDeckSet (fpRows db colors bracket mode) c)).card
        ≤ (fpDeckIds db colors bracket mode).length :=
      le_trans (Finset.card_filter_le _ _) (List.toFinset_card_le _)
    have htotpos : 0 < (fpDeckIds db colors bracket mode).length := by omega
    refine ⟨?_, ?_, ?_, ?_, ?_, ?_⟩
    · rw [hcards]
      unfold pySortedStr
      rw [pySort_length]
      exact hcllen
    · rw [hcards]
      exact pySort_nodup hclnd
    · rw [hcards]
      intro a ha b hb hab
      exact hclpw a (mem_pySortedStr.mp ha) b (mem_pySortedStr.mp hb) hab
    · rw [hfreqdef, hinter, hcards]
    · rw [hdcdef, hinter, hcards]
    · rw [hfreqdef, hinter]
      apply pyRoundTo_le_hundred
      have hdiv : (((fpDeckIds db colors bracket mode).toFinset.filter
            (fun d => ∀ c ∈ pySortedStr cl, d ∈ cardDeckSet (fpRows db colors bracket mode) c)).card : Rat)
          / ((fpDeckIds db colors bracket mode).length : Rat) ≤ 1 := by
        apply div_le_one_of_le₀
        · exact_mod_cast hcardle
        · positivity
      nlinarith [hdiv]

/-- C4 witness: the three-deck database where `find_packages` emits one
full-frequency three-card package. -/
theorem C4_package_invariants_witness :
    (3 : Nat) ≤ (Package.cards ⟨["Aa", "Bb", "Cc"], 100, 3⟩).length
    ∧ (Package.cards ⟨["Aa", "Bb", "Cc"], 100, 3⟩).Nodup
    ∧ (∀ a ∈ (Package.cards ⟨["Aa", "Bb", "Cc"], 100, 3⟩),
        ∀ b ∈ (Package.cards ⟨["Aa", "Bb", "Cc"], 100, 3⟩), a ≠ b →
          (7 : Rat)/10 ≤ jaccard (fpRows fpDB none none "exact") a b)
    ∧ (Package.frequency ⟨["Aa", "Bb", "Cc"], 100, 3⟩) = pyRoundTo
        ((((fpDeckIds fpDB none none "exact").toFinset.filter
            (fun d => ∀ c ∈ (Package.cards ⟨["Aa", "Bb", "Cc"], 100, 3⟩),
              d ∈ cardDeckSet (fpRows fpDB none none "exact") c)).card : Rat)
          / ((fpDeckIds fpDB none none "exact").length : Rat) * 100) 1
    ∧ (Package.deck_count ⟨["Aa", "Bb", "Cc"], 100, 3⟩)
        = ((fpDeckIds fpDB none none "exact").toFinset.filter
            (fun d => ∀ c ∈ (Package.cards ⟨["Aa", "Bb", "Cc"], 100, 3⟩),
              d ∈ cardDeckSet (fpRows fpDB none none "exact") c)).card
    ∧ (Package.frequency ⟨["Aa", "Bb", "Cc"], 100, 3⟩) ≤ 100 :=
  C4_package_invariants fpDB none none (7/10) 3 "exact"
    ⟨3, [⟨["Aa", "Bb", "Cc"], 100, 3⟩]⟩ ⟨["Aa", "Bb", "Cc"], 100, 3⟩
    (by decide) (by decide)

/-! ## Claim C8 -/

/-- C8: `find_packages` on a filter matching fewer than 3 decks returns the
structured error payload carrying the human-readable reason and the found
deck count (raising no exception — the function is total); with 3 or more
matching decks it returns a success payload. -/
theorem C8_min_deck_guard (db : DB) (colors : Option (List Char)) (bracket : Option Int)
    (t : Rat) (minCards : Nat) (mode : String) :
    ((fpDeckIds db colors bracket mode).length < 3 →
      findPackages db colors bracket t minCards mode
        = .error "Need at least 3 matching decks for package detection"
            (fpDeckIds db colors bracket mode).length)
    ∧ (3 ≤ (fpDeckIds db colors bracket mode).length →
      ∃ p : FPPayload, findPackages db colors bracket t minCards mode = .ok p) := by
  constructor
  · intro h
    unfold findPackages
    dsimp only
    rw [if_pos h]
  · intro h
    unfold findPackages
    dsimp only
    rw [if_neg (not_lt.mpr h)]
    exact ⟨_, rfl⟩

/-- C8 witness: one matching deck yields the error payload with count 1;
three matching decks yield a success payload. -/
theorem C8_min_deck_guard_witness :
    findPackages oneDeckDB none none (7/10) 3 "exact"
        = .error "Need at least 3 matching decks for package detection"
            (fpDeckIds oneDeckDB none none "exact").length
    ∧ (∃ p : FPPayload, findPackages fpDB none none (7/10) 3 "exact" = .ok p) :=
  ⟨(C8_min_deck_guard oneDeckDB none none (7/10) 3 "exact").1 (by decide),
   (C8_min_deck_guard fpDB none none (7/10) 3 "exact").2 (by decide)⟩

/-! ## Claim C5 -/

theorem cbDiffs_mem {db : DB} {idsA idsB : List Nat} {e : CBEntry}
    (he : e ∈ cbDiffs db idsA idsB) :
    (1 : Rat)/5 < |cardFreq db idsB e.name - cardFreq db idsA e.name|
    ∧ e.diff = pyRoundTo ((cardFreq db idsB e.name - cardFreq db idsA e.name) * 100) 1 := by
  unfold cbDiffs at he
  obtain ⟨card, -, hfe⟩ := List.mem_filterMap.mp he
  dsimp only at hfe
  split at hfe
  · next hcond =>
    rw [Option.some.injEq] at hfe
    subst hfe
    exact ⟨hcond, rfl⟩
  · exact absurd hfe (by simp)

theorem absDiff_total : ∀ x y : CBEntry,
    (fun x y => decide (|y.diff| ≤ |x.diff|)) x y = true
    ∨ (fun x y => decide (|y.diff| ≤ |x.diff|)) y x = true := by
  intro x y
  rcases le_total |y.diff| |x.diff| with h | h
  · left; exact decide_eq_true h
  · right; exact decide_eq_true h

theorem absDiff_trans : ∀ x y z : CBEntry,
    (fun x y => decide (|y.diff| ≤ |x.diff|)) x y = true →
    (fun x y => decide (|y.diff| ≤ |x.diff|)) y z = true →
    (fun x y => decide (|y.diff| ≤ |x.diff|)) x z = true := by
  intro x y z hxy hyz
  exact decide_eq_true (le_trans (of_decide_eq_true hyz) (of_decide_eq_true hxy))

/-- C5 counterexample: at the claimed scenario (card `"X"` in 90% of
bracket-2 decks and 10% of bracket-3 decks, comparing bracket 2 as `a`
against bracket 3 as `b`), the entry reported in the "more common in
bracket 2" side carries the signed `diff` value `-80.0`, not `80.0`. -/
theorem C5_diff_sign_counterexample :
    compareBrackets cbDB ['G'] 2 3 "exact"
      = .ok ⟨10, 10, [], [⟨"X", 90, 10, -80⟩]⟩
    ∧ ¬ ∃ e ∈ (CBPayload.more_in_bracket_a ⟨10, 10, [], [⟨"X", (90 : Rat), 10, -80⟩]⟩),
        e.name = "X" ∧ e.diff = 80 := by
  constructor
  · decide
  · decide

/-- C5 (amended): in the 90%/10% scenario the card lands in the
"more common in bracket 2" side with signed diff `-80.0` (negative meaning
more common in `bracket_a`); in general only cards whose play-rate
difference exceeds 20 percentage points (0.2 as a fraction, strictly) are
reported, entries on the `b` side have positive rounded diff and entries on
the `a` side negative, each side is ordered by descending absolute
difference, and each side is capped at 20 entries. -/
theorem C5_bracket_comparison_report :
    (compareBrackets cbDB ['G'] 2 3 "exact"
      = .ok ⟨10, 10, [], [⟨"X", 90, 10, -80⟩]⟩)
    ∧ ∀ (db : DB) (colors : List Char) (a b : Int) (mode : String) (p : CBPayload),
        compareBrackets db colors a b mode = .ok p →
        (∀ e ∈ p.more_in_bracket_b, 0 < e.diff
          ∧ (1 : Rat)/5 < |cardFreq db (matchingDeckIds db (some colors) (some b) none none mode) e.name
              - cardFreq db (matchingDeckIds db (some colors) (some a) none none mode) e.name|)
        ∧ (∀ e ∈ p.more_in_bracket_a, e.diff < 0
          ∧ (1 : Rat)/5 < |cardFreq db (matchingDeckIds db (some colors) (some b) none none mode) e.name
              - cardFreq db (matchingDeckIds db (some colors) (some a) none none mode) e.name|)
        ∧ p.more_in_bracket_a.length ≤ 20
        ∧ p.more_in_bracket_b.length ≤ 20
        ∧ p.more_in_bracket_a.Pairwise (fun x y => |y.diff| ≤ |x.diff|)
        ∧ p.more_in_bracket_b.Pairwise (fun x y => |y.diff| ≤ |x.diff|) := by
  constructor
  · decide
  · intro db colors a b mode p hok
    unfold compareBrackets at hok
    dsimp only at hok
    split at hok
    · exact absurd hok (by simp)
    · have hA : p.more_in_bracket_a
          = ((pySort (fun x y => decide (|y.diff| ≤ |x.diff|))
              (cbDiffs db (matchingDeckIds db (some colors) (some a) none none mode)
                (matchingDeckIds db (some colors) (some b) none none mode))).filter
              (fun d => decide (d.diff < 0))).take 20 := by
        cases hok
        rfl
      have hB : p.more_in_bracket_b
          = ((pySort (fun x y => decide (|y.diff| ≤ |x.diff|))
              (cbDiffs db (matchingDeckIds db (some colors) (some a) none none mode)
                (matchingDeckIds db (some colors) (some b) none none mode))).filter
              (fun d => decide (0 < d.diff))).take 20 := by
        cases hok
        rfl
      have hsorted := pySort_sorted absDiff_total absDiff_trans
        (cbDiffs db (matchingDeckIds db (some colors) (some a) none none mode)
          (matchingDeckIds db (some colors) (some b) none none mode))
      refine ⟨?_, ?_, ?_, ?_, ?_, ?_⟩
      · intro e he
        rw [hB] at he
        have he2 := List.mem_of_mem_take he
        obtain ⟨hmem, hsign⟩ := List.mem_filter.mp he2
        have he3 := mem_pySort.mp hmem
        exact ⟨of_decide_eq_true hsign, (cbDiffs_mem he3).1⟩
      · intro e he
        rw [hA] at he
        have he2 := List.mem_of_mem_take he
        obtain ⟨hmem, hsign⟩ := List.mem_filter.mp he2
        have he3 := mem_pySort.mp hmem
        exact ⟨of_decide_eq_true hsign, (cbDiffs_mem he3).1⟩
      · rw [hA]
        exact List.length_take_le 20 _
      · rw [hB]
        exact List.length_take_le 20 _
      · rw [hA]
        refine List.Pairwise.sublist (List.take_sublist 20 _) ?_
        refine List.Pairwise.imp (fun h => of_decide_eq_true h) ?_
        exact List.Pairwise.filter _ hsorted
      · rw [hB]
        refine List.Pairwise.sublist (List.take_sublist 20 _) ?_
        refine List.Pairwise.imp (fun h => of_decide_eq_true h) ?_
        exact List.Pairwise.filter _ hsorted

/-- C5 witness: the general report properties instantiated at the concrete
90%/10% scenario database. -/
theorem C5_bracket_comparison_report_witness :
    (∀ e ∈ (CBPayload.more_in_bracket_b ⟨10, 10, [], [⟨"X", 90, 10, -80⟩]⟩), 0 < e.diff
      ∧ (1 : Rat)/5 < |cardFreq cbDB (matchingDeckIds cbDB (some ['G']) (some 3) none none "exact") e.name
          - cardFreq cbDB (matchingDeckIds cbDB (some ['G']) (some 2) none none "exact") e.name|)
    ∧ (∀ e ∈ (CBPayload.more_in_bracket_a ⟨10, 10, [], [⟨"X", 90, 10, -80⟩]⟩), e.diff < 0
      ∧ (1 : Rat)/5 < |cardFreq cbDB (matchingDeckIds cbDB (some ['G']) (some 3) none none "exact") e.name
          - cardFreq cbDB (matchingDeckIds cbDB (some ['G']) (some 2) none none "exact") e.name|)
    ∧ (CBPayload.more_in_bracket_a ⟨10, 10, [], [⟨"X", (90 : Rat), 10, -80⟩]⟩).length ≤ 20
    ∧ (CBPayload.more_in_bracket_b ⟨10, 10, [], [⟨"X", (90 : Rat), 10, -80⟩]⟩).length ≤ 20
    ∧ (CBPayload.more_in_bracket_a ⟨10, 10, [], [⟨"X", (90 : Rat), 10, -80⟩]⟩).Pairwise
        (fun x y => |y.diff| ≤ |x.diff|)
    ∧ (CBPayload.more_in_bracket_b ⟨10, 10, [], [⟨"X", (90 : Rat), 10, -80⟩]⟩).Pairwise
        (fun x y => |y.diff| ≤ |x.diff|) :=
  C5_bracket_comparison_report.2 cbDB ['G'] 2 3 "exact"
    ⟨10, 10, [], [⟨"X", 90, 10, -80⟩]⟩ (by decide)
